import Mathlib

/-!
Verification of the Helldivers 2 LFG Discord bot's extraction-and-reconciliation
pipeline: a shallow embedding of `boundary_drawing.py`, `ocr_processing.py`,
`database.py`, `cogs/extract_helpers.py` and `cogs/extract_cog.py`.

Modelling conventions:
* Python ints are `ℤ` (or `ℕ` where the source value is a count).
* Python float arithmetic is modelled exactly over the rationals; in executable
  positions the rational computations are carried out with integer numerator /
  denominator arithmetic (IEEE rounding of the intermediate float values is
  abstracted away; `f"{x:.1f}"` is modelled as exact round-half-to-even to one
  decimal digit, at which no representable double is ever an exact tie).
* Fallible code (`try`/`except`, regex failure, `None` returns) is `Option`.
* Side-effecting collaborators (the OCR engine, the MongoDB collections, the
  Discord channel) are passed in as explicit function / state parameters.
* Python string methods are modelled on ASCII data (`str.lower`, `str.strip`,
  the `\d`, `\s`, `\w` regex classes are restricted to their ASCII subsets).
-/

namespace HD2

/-! ## Python string primitives -/

/-- The characters `str.strip()` / the regex class `\s` remove (ASCII subset). -/
def isPyWS (c : Char) : Bool :=
  c = ' ' || c = '\t' || c = '\n' || c = '\r' || c = '\x0b' || c = '\x0c'

/-- Python `str.strip()` (ASCII whitespace). -/
def pyStrip (s : String) : String :=
  String.mk (((s.data.dropWhile isPyWS).reverse.dropWhile isPyWS).reverse)

/-- Python `str.upper()` (ASCII). -/
def pyUpper (s : String) : String := String.mk (s.data.map Char.toUpper)

/-- Python `str.lower()` (ASCII). -/
def pyLower (s : String) : String := String.mk (s.data.map Char.toLower)

/-- Decimal value of a list of digit characters (most significant first). -/
def digitsVal (cs : List Char) : ℕ :=
  cs.foldl (fun a c => a * 10 + (c.toNat - '0'.toNat)) 0

/-- A valid CPython digit group: nonempty digits, optionally with single
underscores strictly between digits (`int`/`float` literal grammar). -/
def validDigitGroup (cs : List Char) : Bool :=
  !cs.isEmpty
  && cs.all (fun c => c.isDigit || c = '_')
  && (match cs.head? with | some c => c.isDigit | none => false)
  && (match cs.getLast? with | some c => c.isDigit | none => false)
  && (cs.zip cs.tail).all (fun p => !(p.1 = '_' && p.2 = '_'))

/-- Value of a digit group, ignoring the grouping underscores. -/
def digitGroupVal (cs : List Char) : ℕ := digitsVal (cs.filter (fun c => c ≠ '_'))

/-- Python `int(s)` on a whitespace-stripped character list: an optional
sign followed by a digit group; anything else raises `ValueError` (`none`). -/
def pyIntCore (cs : List Char) : Option ℤ :=
  match cs with
  | [] => none
  | c :: rest =>
    if c = '+' then
      if validDigitGroup rest then some (digitGroupVal rest : ℤ) else none
    else if c = '-' then
      if validDigitGroup rest then some (-(digitGroupVal rest : ℤ)) else none
    else if validDigitGroup (c :: rest) then some (digitGroupVal (c :: rest) : ℤ)
    else none

/-- Python `int(s)` on a string: strips whitespace, an optional sign, then a
digit group; any other input raises `ValueError`, modelled as `none`. -/
def pyInt (s : String) : Option ℤ := pyIntCore (pyStrip s).data

/-- Split a character list at the first occurrence of any of the given
characters, returning the pieces before and after it, if present. -/
def splitAtFirst (seps : List Char) : List Char → Option (List Char × List Char)
  | [] => none
  | c :: rest =>
    if seps.contains c then some ([], rest)
    else match splitAtFirst seps rest with
      | some (a, b) => some (c :: a, b)
      | none => none

/-- Python `float(s)` on a string, as an exact rational: optional sign,
mantissa `D`, `D.`, `.D` or `D.D` with digit groups, optional exponent.
The non-finite literals (`inf`, `nan`) are outside the rational model and are
mapped to `none`; no claim depends on them. Raises (`none`) otherwise. -/
def pyFloat (s : String) : Option ℚ :=
  let cs := (pyStrip s).data
  let (sgn, cs) : ℤ × List Char :=
    match cs with
    | '+' :: r => (1, r)
    | '-' :: r => (-1, r)
    | r => (1, r)
  let (mant, expPart) :=
    match splitAtFirst ['e', 'E'] cs with
    | some (a, b) => (a, some b)
    | none => (cs, none)
  let mantVal : Option (ℤ × ℕ) :=  -- scaled mantissa and # of fraction digits
    match splitAtFirst ['.'] mant with
    | none =>
      if validDigitGroup mant then some ((digitGroupVal mant : ℤ), 0) else none
    | some (ip, fp) =>
      if ip.isEmpty then
        if validDigitGroup fp then
          some ((digitGroupVal fp : ℤ), (fp.filter (fun c => c ≠ '_')).length)
        else none
      else if fp.isEmpty then
        if validDigitGroup ip then some ((digitGroupVal ip : ℤ), 0) else none
      else
        if validDigitGroup ip && validDigitGroup fp then
          some ((digitGroupVal ip : ℤ) * 10 ^ (fp.filter (fun c => c ≠ '_')).length
                  + (digitGroupVal fp : ℤ),
                (fp.filter (fun c => c ≠ '_')).length)
        else none
  let expVal : Option ℤ :=
    match expPart with
    | none => some 0
    | some ec =>
      match ec with
      | '+' :: r => if validDigitGroup r then some (digitGroupVal r : ℤ) else none
      | '-' :: r => if validDigitGroup r then some (-(digitGroupVal r : ℤ)) else none
      | r => if validDigitGroup r then some (digitGroupVal r : ℤ) else none
  match mantVal, expVal with
  | some (m, fd), some e => some ((sgn * m : ℚ) / (10 : ℚ) ^ fd * (10 : ℚ) ^ e)
  | _, _ => none

/-! ## Accuracy computation and one-decimal percent formatting

`ocr_processing.process_for_ocr` (lines 199-243) and
`extract_cog.ConfirmationView.confirm` (lines 101-116) both clamp
`Shots Hit` to `Shots Fired`, compute `(hit / fired) * 100` (0 when
`fired == 0`), clamp at `100.0` and render with `f"{acc:.1f}%"`.
The float formatting is modelled as exact round-half-to-even of the rational
value to tenths. -/

/-- Round-half-to-even of the rational `num / den` (for `den > 0`), carried out
with Euclidean integer division so it is kernel-evaluable. -/
def rndHalfEvenTenths (num den : ℤ) : ℤ :=
  if den < 2 * (num % den) then num / den + 1
  else if 2 * (num % den) < den then num / den
  else if (num / den) % 2 = 0 then num / den else num / den + 1

/-- Render a number of tenths as Python renders a one-decimal float,
e.g. `880 ↦ "88.0"`. (Python's `-0.0` sign quirk is outside the model; all
rendered accuracies in the pipeline are nonnegative.) -/
def formatTenths (t : ℤ) : String :=
  if t < 0 then
    "-" ++ toString ((-t).toNat / 10) ++ "." ++ toString ((-t).toNat % 10)
  else
    toString (t.toNat / 10) ++ "." ++ toString (t.toNat % 10)

/-- The accuracy percent string computed by `process_for_ocr`
(`ocr_processing.py` lines 199-243): clamp hits to fired, `(hit/fired)*100`
(or 0), `min(acc, 100.0)`, `f"{acc:.1f}%"`. The `min` clamp is applied to the
rounded tenths; this commutes with rounding because the bound `100.0` is
exactly `1000` tenths. -/
def processAccuracyStr (sf sh : ℤ) : String :=
  let sh2 := if sf < sh then sf else sh
  let t := if 0 < sf then min (rndHalfEvenTenths (sh2 * 1000) sf) 1000 else 0
  formatTenths t ++ "%"

/-- The accuracy percent string recomputed at commit time by
`ConfirmationView.confirm` (`extract_cog.py` lines 102-116): same clamp,
ratio, `min` and format applied to the (possibly edited) shot counts. -/
def confirmAccuracyStr (sf sh : ℤ) : String :=
  let sh2 := if sf < sh then sf else sh
  let t := if 0 < sf then min (rndHalfEvenTenths (sh2 * 1000) sf) 1000 else 0
  formatTenths t ++ "%"

/-- The specification's accuracy formula, written from the spec's words:
`Accuracy = round(Shots Hit / Shots Fired × 100, 1 decimal)` rendered as a
one-decimal percent string, `Shots Hit` first clamped to `≤ Shots Fired`,
and `0` when `Shots Fired = 0`. -/
def specAccuracyTenths (sf sh : ℕ) : ℤ :=
  if sf = 0 then 0 else rndHalfEvenTenths ((min sh sf : ℤ) * 1000) (sf : ℤ)

/-- Spec-side accuracy string (see `specAccuracyTenths`). -/
def specAccuracyStr (sf sh : ℕ) : String :=
  formatTenths (specAccuracyTenths sf sh) ++ "%"

/-! ## Region mapping (`boundary_drawing.py`)

`config.py` defaults: `PLAYER_OFFSET = 460`, `NUM_PLAYERS = 4`. -/

/-- `config.PLAYER_OFFSET` (env default `460`). -/
def PLAYER_OFFSET : ℤ := 460

/-- `config.NUM_PLAYERS` (env default `4`). -/
def NUM_PLAYERS : ℕ := 4

/-- `boundary_drawing.TOLERANCE`. -/
def TOLERANCE : ℤ := 5

/-- A field bounding box `(left, top, right, bottom)`. -/
structure Box where
  left : ℤ
  top : ℤ
  right : ℤ
  bottom : ℤ
deriving DecidableEq, Repr

/-- Region table for the `(1280, 800)` profile (`boundary_drawing.py` 20-35). -/
def regions1280 : List (String × Box) :=
  [("Name", ⟨87, 133, 262, 152⟩),
   ("Kills", ⟨229, 225, 293, 247⟩),
   ("Accuracy", ⟨229, 259, 293, 278⟩),
   ("Shots Fired", ⟨229, 291, 293, 311⟩),
   ("Shots Hit", ⟨229, 322, 293, 346⟩),
   ("Deaths", ⟨250, 352, 293, 376⟩),
   ("Stims Used", ⟨250, 426, 293, 452⟩),
   ("Samples Extracted", ⟨250, 496, 293, 522⟩),
   ("Stratagems Used", ⟨250, 533, 293, 559⟩),
   ("Melee Kills", ⟨250, 570, 293, 596⟩)]

/-- Region table for the `(1920, 1080)` reference profile
(`boundary_drawing.py` 36-53). -/
def regions1920 : List (String × Box) :=
  [("Name", ⟨130, 200, 360, 230⟩),
   ("Kills", ⟨340, 338, 450, 375⟩),
   ("Accuracy", ⟨340, 386, 450, 420⟩),
   ("Shots Fired", ⟨340, 435, 450, 470⟩),
   ("Shots Hit", ⟨340, 483, 449, 518⟩),
   ("Deaths", ⟨375, 528, 450, 566⟩),
   ("Melee Kills", ⟨375, 770, 450, 805⟩),
   ("Stims Used", ⟨375, 575, 450, 610⟩),
   ("Samples Extracted", ⟨375, 670, 450, 705⟩),
   ("Stratagems Used", ⟨375, 720, 450, 755⟩)]

/-- Region table for the `(1365, 768)` profile (`boundary_drawing.py` 55-71). -/
def regions1365 : List (String × Box) :=
  [("Name", ⟨92, 142, 256, 164⟩),
   ("Kills", ⟨242, 241, 320, 267⟩),
   ("Accuracy", ⟨242, 275, 320, 299⟩),
   ("Shots Fired", ⟨242, 310, 320, 334⟩),
   ("Shots Hit", ⟨242, 343, 319, 368⟩),
   ("Deaths", ⟨266, 375, 320, 403⟩),
   ("Melee Kills", ⟨266, 548, 320, 572⟩),
   ("Stims Used", ⟨266, 409, 320, 433⟩),
   ("Samples Extracted", ⟨266, 476, 320, 501⟩),
   ("Stratagems Used", ⟨266, 512, 320, 537⟩)]

/-- Region table for the `(1835, 768)` profile (`boundary_drawing.py` 73-88). -/
def regions1835 : List (String × Box) :=
  [("Name", ⟨124, 142, 343, 164⟩),
   ("Kills", ⟨325, 241, 430, 267⟩),
   ("Accuracy", ⟨325, 275, 430, 299⟩),
   ("Shots Fired", ⟨325, 310, 430, 334⟩),
   ("Shots Hit", ⟨325, 343, 429, 368⟩),
   ("Deaths", ⟨358, 375, 430, 403⟩),
   ("Melee Kills", ⟨358, 548, 430, 572⟩),
   ("Stims Used", ⟨358, 409, 430, 433⟩),
   ("Samples Extracted", ⟨358, 476, 430, 501⟩),
   ("Stratagems Used", ⟨358, 512, 430, 537⟩)]

/-- `boundary_drawing.KNOWN_RESOLUTIONS`: fixed-dimension key, region table
and per-player horizontal offset of each profile. -/
def KNOWN_RESOLUTIONS : List ((ℕ × ℕ) × (List (String × Box) × ℤ)) :=
  [((1280, 800), (regions1280, 305)),
   ((1920, 1080), (regions1920, PLAYER_OFFSET)),
   ((1365, 768), (regions1365, 327)),
   ((1835, 768), (regions1835, 440))]

/-- `boundary_drawing.is_close_enough`: `(w, h)` within `±tolerance` of
`(target_w, target_h)`. -/
def is_close_enough (w h targetW targetH tolerance : ℤ) : Bool :=
  |w - targetW| ≤ tolerance && |h - targetH| ≤ tolerance

/-- `boundary_drawing.adjust_region`: shift a box horizontally by the x part
of `offset` plus `player_index * player_offset` (never vertically), then clamp
every coordinate to be nonnegative. -/
def adjust_region (region : Box) (offset : ℤ × ℤ) (playerIndex : ℕ)
    (playerOffset : ℤ) : Box :=
  let xOff := offset.1
  let l := region.left + xOff + (playerIndex : ℤ) * playerOffset
  let r := region.right + xOff + (playerIndex : ℤ) * playerOffset
  ⟨max 0 l, max 0 region.top, max 0 r, max 0 region.bottom⟩

/-- The base-profile dimensions `define_regions` picks for an image shape
`(h, w)` (`boundary_drawing.py` 131-158): the `±5px` tolerance check is run
only against `(1280, 800)` and `(1920, 1080)`; everything else falls back to
the `(1920, 1080)` reference. `none` models a missing / falsy `image_shape`. -/
def chooseProfile (shape : Option (ℕ × ℕ)) : ℕ × ℕ :=
  match shape with
  | none => (1920, 1080)
  | some (h, w) =>
    if is_close_enough (w : ℤ) (h : ℤ) 1280 800 TOLERANCE then (1280, 800)
    else if is_close_enough (w : ℤ) (h : ℤ) 1920 1080 TOLERANCE then (1920, 1080)
    else (1920, 1080)

/-- Look up a profile's region table and offset in `KNOWN_RESOLUTIONS`. -/
def profileOf (dims : ℕ × ℕ) : List (String × Box) × ℤ :=
  ((KNOWN_RESOLUTIONS.find? (fun e => e.1 = dims)).map (fun e => e.2)).getD
    (regions1920, PLAYER_OFFSET)

/-- `int(coord * scale)` where `scale = actual / base`: for the nonnegative
values produced here, truncation of the exact product equals floor, i.e.
Euclidean division `coord * actual / base`. -/
def scaleCoord (c : ℤ) (actual base : ℕ) : ℤ :=
  c * (actual : ℤ) / (base : ℤ)

/-- Scale all four box coordinates by `(w / baseW, h / baseH)`
(`boundary_drawing.py` 177-180). -/
def scaleBox (b : Box) (w h baseW baseH : ℕ) : Box :=
  ⟨scaleCoord b.left w baseW, scaleCoord b.top h baseH,
   scaleCoord b.right w baseW, scaleCoord b.bottom h baseH⟩

/-- `boundary_drawing.define_regions` for an image shape `(h, w)`: pick a base
profile, then for each of `NUM_PLAYERS` player columns shift every base box
horizontally by `player_index * offset` (clamping at 0) and scale it by
`(w / base_width, h / base_height)`; keys are `"P<n> <field>"`. -/
def define_regions (shape : Option (ℕ × ℕ)) : List (String × Box) :=
  let dims := chooseProfile shape
  let data := profileOf dims
  let wh : ℕ × ℕ :=
    match shape with
    | none => dims  -- scale_x = scale_y = 1.0
    | some (h, w) => (w, h)
  (List.range NUM_PLAYERS).flatMap (fun pi =>
    data.1.map (fun kb =>
      ("P" ++ toString (pi + 1) ++ " " ++ kb.1,
       scaleBox (adjust_region kb.2 (0, 0) pi data.2) wh.1 wh.2 dims.1 dims.2)))

/-! ## Name normalization and fuzzy matching (`database.py`) -/

/-- Helper for the non-greedy regex `<.*?>`: consume characters up to and past
the first `'>'`, failing if a newline (which `.` cannot match) or the end of
the string comes first. Returns the remainder after the `'>'`. -/
def splitAtGt : List Char → Option (List Char)
  | [] => none
  | c :: rest => if c = '>' then some rest else if c = '\n' then none else splitAtGt rest

/-- `re.sub(r"<.*?>", "", ·)`: remove every non-greedy `<...>` segment; a `'<'`
with no closing `'>'` (before a newline / end) is kept literally. The fuel
argument (instantiated with the input length) only bounds the recursion. -/
def removeAngleFuel : ℕ → List Char → List Char
  | 0, _ => []
  | _, [] => []
  | fuel + 1, c :: rest =>
    if c = '<' then
      match splitAtGt rest with
      | some rest2 => removeAngleFuel fuel rest2
      | none => '<' :: removeAngleFuel fuel rest
    else c :: removeAngleFuel fuel rest

/-- The regex class `[\d_]` (ASCII). -/
def isDigitOrUnderscore (c : Char) : Bool := c.isDigit || c = '_'

/-- `database.normalize_name`: lowercase, remove `<...>` segments, strip
leading/trailing runs of digits/underscores, keep only `[a-z0-9]`. -/
def normalize_name (name : String) : String :=
  let cs := name.data.map Char.toLower
  let cs := removeAngleFuel cs.length cs
  let cs := ((cs.dropWhile isDigitOrUnderscore).reverse.dropWhile
    isDigitOrUnderscore).reverse
  String.mk (cs.filter (fun c => c.isLower || c.isDigit))

/-- One step of the dict comprehension
`{normalize_name(n): n for n in registered_names}`: on a repeated key the
value is overwritten in place (Python dicts keep first-insertion key order). -/
def normInsert (acc : List (String × String)) (n : String) : List (String × String) :=
  let k := normalize_name n
  if acc.any (fun p => p.1 = k) then
    acc.map (fun p => if p.1 = k then (k, n) else p)
  else acc ++ [(k, n)]

/-- The `norm_name_map` dict of `find_best_match`, as an ordered key-value
list. -/
def buildNormMap (names : List String) : List (String × String) :=
  names.foldl normInsert []

/-- The length gate of `find_best_match` (`database.py` 216-221): candidate
kept iff `|len(n) - len(ocr)| <= 3` and the length ratio
`len(n)/len(ocr)` (taken as `1.0` when `len(ocr) == 0`) lies in
`[0.75, 1.25]`. The rational bounds are expressed by cross-multiplication so
the gate is kernel-evaluable; `lengthGate_iff_ratio` below recovers the
source's ratio formulation. -/
def lengthGate (ocrLen nLen : ℕ) : Bool :=
  ((nLen : ℤ) - (ocrLen : ℤ)).natAbs ≤ 3
  && (if ocrLen = 0 then true
      else 3 * ocrLen ≤ 4 * nLen && 4 * nLen ≤ 5 * ocrLen)

/-- The source's `length_ratio` value (`len(n)/len(ocr)`, `1.0` when the OCR
name is empty), as an exact rational. -/
def lengthRatio (ocrLen nLen : ℕ) : ℚ :=
  if ocrLen = 0 then 1 else (nLen : ℚ) / (ocrLen : ℚ)

/-- `matches.sort(key=lambda x: -x[1])` followed by `matches[0]`: the sort is
stable, so this is the first element attaining the maximal score. -/
def pickFirstMax : List (String × ℚ) → Option (String × ℚ)
  | [] => none
  | x :: xs => some (xs.foldl (fun b y => if b.2 < y.2 then y else b) x)

/-- Look up the original name stored under normalized key `n` in the norm
map (`norm_name_map[n]`; the key always exists where this is used). -/
def normMapGet (map : List (String × String)) (n : String) : String :=
  (((map.find? (fun p => p.1 = n)).map (fun p => p.2)).getD "")

/-- The `norm_db_names` candidate list of `find_best_match`
(`database.py` 215-221): the normalized keys that survive the length gate
against the normalized OCR name. -/
def fbmKeys (ocrName : String) (registeredNames : List String) : List String :=
  ((buildNormMap registeredNames).map (fun p => p.1)).filter
    (fun n => lengthGate (normalize_name (pyStrip ocrName)).length n.length)

/-- `database.find_best_match`, parametric in the two rapidfuzz scorers
(`fuzz.partial_ratio`, `fuzz.token_sort_ratio`), which are pure float-valued
functions of the two normalized names: empty input short-circuits; candidates
pass the length gate; exact normalized equality returns at score 100;
OCR names shorter than `min_len` never reach fuzzy scoring; otherwise the
best `max(partial, token_sort)` score wins if it reaches the threshold.
Returns `none` for Python's `(None, None)`. -/
def find_best_match (pr ts : String → String → ℚ) (threshold : ℚ)
    (minLen : ℕ) (ocrName : String) (registeredNames : List String) :
    Option (String × ℚ) :=
  if ocrName = "" || registeredNames.isEmpty then none
  else
    match (fbmKeys ocrName registeredNames).find?
        (fun n => n = normalize_name (pyStrip ocrName)) with
    | some n => some (normMapGet (buildNormMap registeredNames) n, 100)
    | none =>
      if (normalize_name (pyStrip ocrName)).length < minLen then none
      else
        pickFirstMax
          ((((fbmKeys ocrName registeredNames).map (fun n =>
              (n, max (pr (normalize_name (pyStrip ocrName)) n)
                (ts (normalize_name (pyStrip ocrName)) n)))).filter
            (fun c => threshold ≤ c.2)).map
            (fun c => (normMapGet (buildNormMap registeredNames) c.1, c.2)))

/-- `config.MATCH_SCORE_THRESHOLD` (env default `50`). -/
def MATCH_SCORE_THRESHOLD : ℚ := 50

/-! ## Mission id issuance (`database.py` 255-303)

The durable counter document is the state: `none` models an absent seed
document. The primary path seeds the counter at 7100718 (`$setOnInsert`),
atomically increments it (`$inc` + `ReturnDocument.AFTER`) and, should the
stored value have been below the floor, pushes it up with `$max`. -/

/-- The fixed counter floor `seed_value = 7100718`. -/
def missionSeedValue : ℤ := 7100718

/-- One issuance on the primary atomic-increment path of
`database._get_next_mission_id`: returns the issued mission id and the
counter value left in the database. -/
def nextMissionId (counter : Option ℤ) : ℤ × ℤ :=
  let seq0 := counter.getD missionSeedValue    -- $setOnInsert seed if absent
  let seq1 := seq0 + 1                         -- atomic $inc, read AFTER
  if seq1 < missionSeedValue + 1 then
    let seq2 := max seq1 (missionSeedValue + 1)  -- $max push to the floor
    (seq2, seq2)
  else (seq1, seq1)

/-- The display format `f"Mission #{mission_id:07d}"`'s number part
(`extract_cog.py` line 156): decimal digits left-padded with zeros to width 7
(ids are always positive, so no sign handling is needed). -/
def formatMissionId (n : ℤ) : String :=
  let s := toString n
  if s.length < 7 then String.mk (List.replicate (7 - s.length) '0') ++ s else s

/-! ## Optical extraction (`ocr_processing.py`) -/

/-- The labels treated as numeric by `clean_ocr_result`. -/
def NUMERIC_FIELDS : List String :=
  ["Shots Fired", "Shots Hit", "Kills", "Deaths", "Melee Kills",
   "Stims Used", "Samples Extracted", "Stratagems Used"]

/-- The zero-prone fields given special treatment (`ocr_processing.py`
lines 58 and 104). -/
def zeroProneFields : List String := ["Melee Kills", "Samples Extracted"]

/-- `perform_ocr` (`ocr_processing.py` 18-71), parametric in the OCR engine:
`ocrOut i` is the (stripped-later) text the engine returns on preprocessing
variant `i` of the fixed six-variant list (unmodified, grayscale, Otsu
threshold, blur, adaptive threshold, brightness/contrast), `none` modelling an
exception raised during that iteration (caught by the outer handler, which
returns `None` for the whole call); `recheckOut i` is the result of the
optional second no-`'8'` pass on variant `i`'s image (`none` = its inner
`try` fails, falling back to the first reading). -/
def performOcrLoop (ocrOut recheckOut : ℕ → Option String) (label : String) :
    List ℕ → Option String
  | [] => none
  | i :: rest =>
    match ocrOut i with
    | none => none
    | some raw =>
      let text := pyStrip raw
      if text = "" then performOcrLoop ocrOut recheckOut label rest
      else if zeroProneFields.contains label && (text = "8" || text = "88") then
        match recheckOut i with
        | none => some text
        | some r2 =>
          let t2 := pyStrip r2
          if t2 ≠ "" && t2 ≠ text then some t2 else some text
      else some text

/-- `perform_ocr` over the six preprocessing variants. -/
def perform_ocr (ocrOut recheckOut : ℕ → Option String) (label : String) :
    Option String :=
  performOcrLoop ocrOut recheckOut label (List.range 6)

/-- The misread table of `clean_ocr_result`'s `Name` branch
(`ocr_processing.py` 87-92); the replacements are character-for-character and
no replacement output is itself a misread key, so the sequential
`str.replace` chain acts as a single character map. -/
def nameMisread (c : Char) : Char :=
  if c = '2' then 'Z' else if c = '3' then 'E' else if c = '4' then 'A'
  else if c = '5' then 'S' else if c = '6' then 'G' else if c = '7' then 'T'
  else if c = '8' then 'B' else if c = '9' then 'G' else if c = '|' then 'I'
  else if c = '@' then 'A' else if c = '$' then 'S' else if c = '&' then 'E'
  else if c = '!' then 'I' else if c = '£' then 'E' else if c = '€' then 'E'
  else c

/-- The digit-confusion map of the numeric branch (`ocr_processing.py`
100-102): `O/o→0`, `l/I→1`, `S→5`. -/
def numericMisread (c : Char) : Char :=
  if c = 'O' then '0' else if c = 'o' then '0' else if c = 'l' then '1'
  else if c = 'I' then '1' else if c = 'S' then '5' else c

/-- `re.sub(r'([A-Za-z0-9])([A-Z])$', r'\1', ·)`: drop a trailing uppercase
letter preceded by an alphanumeric; `$` also matches just before a final
newline. -/
def stripTrailingUpper (cs : List Char) : List Char :=
  match cs.reverse with
  | u :: p :: rest =>
    if u.isUpper && p.isAlphanum then (p :: rest).reverse
    else
      match cs.reverse with
      | '\n' :: u2 :: p2 :: rest2 =>
        if u2.isUpper && p2.isAlphanum then ('\n' :: p2 :: rest2).reverse else cs
      | _ => cs
  | _ => cs

/-- Squeeze runs of spaces to a single space (the flag records whether the
previous character was a space). Applied after mapping every whitespace
character to `' '`, this is `re.sub(r'\s+', ' ', ·)`. -/
def squeezeSpaces : Bool → List Char → List Char
  | _, [] => []
  | prev, c :: rest =>
    if c = ' ' then
      if prev then squeezeSpaces true rest else ' ' :: squeezeSpaces true rest
    else c :: squeezeSpaces false rest

/-- Strip leading/trailing ASCII whitespace from a character list. -/
def stripChars (cs : List Char) : List Char :=
  ((cs.dropWhile isPyWS).reverse.dropWhile isPyWS).reverse

/-- `ocr_processing.clean_ocr_result`: falsy input and falsy cleaned output
are `None`. `Name`: misread table, `_`→space, trailing-uppercase strip,
whitespace collapse + strip, then non-`[A-Za-z0-9\s]`→space. Numeric
fields: digit-confusion map (`B→8` suppressed for zero-prone fields), keep
digits. `Accuracy`: keep `[0-9.%]`. Anything else: keep digits. -/
def clean_ocr_result (text label : String) : Option String :=
  if text = "" then none
  else
    let t : List Char :=
      if label = "Name" then
        let cs := text.data.map nameMisread
        let cs := cs.map (fun c => if c = '_' then ' ' else c)
        let cs := stripTrailingUpper cs
        let cs := stripChars (squeezeSpaces false
          (cs.map (fun c => if isPyWS c then ' ' else c)))
        cs.map (fun c => if c.isAlphanum || isPyWS c then c else ' ')
      else if NUMERIC_FIELDS.contains label then
        let cs := text.data.map numericMisread
        let cs := if zeroProneFields.contains label then cs
          else cs.map (fun c => if c = 'B' then '8' else c)
        cs.filter Char.isDigit
      else if label = "Accuracy" then
        text.data.filter (fun c => c.isDigit || c = '.' || c = '%')
      else
        text.data.filter Char.isDigit
    if t = [] then none else some (String.mk t)

/-! ## Per-player record assembly (`process_for_ocr`) -/

/-- A Python value stored in a player dict: an int, a string, or `None`. -/
inductive PyVal where
  | pInt (n : ℤ)
  | pStr (s : String)
  | pNone
deriving DecidableEq, Repr

/-- A player record is an insertion-ordered Python dict. -/
abbrev Player := List (String × PyVal)

/-- Python dict assignment `d[k] = v`: overwrite in place, else append. -/
def setKey (d : Player) (k : String) (v : PyVal) : Player :=
  if d.any (fun p => p.1 = k) then d.map (fun p => if p.1 = k then (k, v) else p)
  else d ++ [(k, v)]

/-- Python dict lookup `d.get(k)`. -/
def getKey (d : Player) (k : String) : Option PyVal :=
  ((d.find? (fun p => p.1 = k)).map (fun p => p.2))

/-- `re.match(r'P(\d+) Name', key)` (a prefix match): `key` starts with `'P'`,
a nonempty digit run, then `" Name"`; returns the player number. -/
def parsePlayerNum (key : String) : Option ℕ :=
  match key.data with
  | 'P' :: rest =>
    let ds := rest.takeWhile Char.isDigit
    let rest2 := rest.drop ds.length
    if !ds.isEmpty && rest2.take 5 = [' ', 'N', 'a', 'm', 'e'] then
      some (digitsVal ds)
    else none
  | _ => none

/-- The per-column field list of `process_for_ocr` (BASE + EXTRA). -/
def ALL_FIELDS : List String :=
  ["Name", "Kills", "Shots Fired", "Shots Hit", "Deaths", "Melee Kills",
   "Stims Used", "Samples Extracted", "Stratagems Used"]

/-- Loop state of the per-field loop: the `player_stats` dict and the
`shots_fired` / `shots_hit` accumulators. -/
structure LoopSt where
  stats : Player
  sf : ℤ
  sh : ℤ
deriving DecidableEq, Repr

/-- One iteration of the field loop (`ocr_processing.py` 154-197). `cell`
abstracts cropping the labelled region out of the image and running
`perform_ocr` on it: `cell label = none` when the label has no OCR text
(falsy `perform_ocr` result); missing region keys and failed cleanup also
store the `"0"` placeholder. -/
def cellStep (cell : String → Option String) (regionKeys : List String)
    (pi : ℕ) (st : LoopSt) (key : String) : LoopSt :=
  let label := "P" ++ toString (pi + 1) ++ " " ++ key
  if !(regionKeys.contains label) then
    { st with stats := setKey st.stats label (.pStr "0") }
  else
    match cell label with
    | none => { st with stats := setKey st.stats label (.pStr "0") }
    | some raw =>
      match clean_ocr_result raw key with
      | none => { st with stats := setKey st.stats label (.pStr "0") }
      | some c =>
        if key = "Name" then { st with stats := setKey st.stats label (.pStr c) }
        else if key = "Shots Fired" then { st with sf := (pyInt c).getD 0 }
        else if key = "Shots Hit" then { st with sh := (pyInt c).getD 0 }
        else if ["Melee Kills", "Stims Used", "Samples Extracted",
            "Stratagems Used"].contains key then
          { st with stats := setKey st.stats label (.pInt ((pyInt c).getD 0)) }
        else { st with stats := setKey st.stats label (.pStr c) }

/-- `k.split(" ", 1)`: the final-dict key for a loop key — the part after the
first space, with `"Name"` renamed to `"player_name"`. Every loop key
contains a space, so the no-space case returns the key unchanged. -/
def renameKey (k : String) : String :=
  match splitAtFirst [' '] k.data with
  | some (_, after) =>
    if String.mk after = "Name" then "player_name" else String.mk after
  | none => k

/-- `int(v)` on a stored dict value (used by the final numeric casts; the
surrounding `try`/`except` maps failure to 0 at the call sites). -/
def intOfVal (v : PyVal) : Option ℤ :=
  match v with
  | .pInt n => some n
  | .pStr s => pyInt s
  | .pNone => none

/-- The string a stored value contributes to
`(formatted_player.get("player_name") or "").strip().lower()`. -/
def nameCheckStr (v : Option PyVal) : String :=
  match v with
  | some (.pStr s) => pyLower (pyStrip s)
  | _ => ""

/-- Assemble one player's final record (`ocr_processing.py` 149-250): run the
field loop, clamp `Shots Hit`, rename keys, force the numeric fields, attach
the computed accuracy string and blank out junk names. -/
def buildPlayer (cell : String → Option String) (regionKeys : List String)
    (pi : ℕ) : Player :=
  let st := ALL_FIELDS.foldl (cellStep cell regionKeys pi) ⟨[], 0, 0⟩
  let sf := st.sf
  let sh := if sf < st.sh then sf else st.sh
  let fp : Player := st.stats.map (fun p => (renameKey p.1, p.2))
  let fp := setKey fp "Shots Fired" (.pInt sf)
  let fp := setKey fp "Shots Hit" (.pInt sh)
  let fp := setKey fp "Melee Kills"
    (.pInt ((intOfVal ((getKey fp "Melee Kills").getD (.pInt 0))).getD 0))
  let fp := setKey fp "Stims Used"
    (.pInt ((intOfVal ((getKey fp "Stims Used").getD (.pInt 0))).getD 0))
  let fp := setKey fp "Samples Extracted"
    (.pInt ((intOfVal ((getKey fp "Samples Extracted").getD (.pInt 0))).getD 0))
  let fp := setKey fp "Stratagems Used"
    (.pInt ((intOfVal ((getKey fp "Stratagems Used").getD (.pInt 0))).getD 0))
  let fp := setKey fp "Accuracy" (.pStr (processAccuracyStr sf st.sh))
  if ["0", ".", "a"].contains (nameCheckStr (getKey fp "player_name")) then
    setKey fp "player_name" .pNone
  else fp

/-- `ocr_processing.process_for_ocr`, parametric in the per-label OCR outcome
`cell` (see `cellStep`) and taking the region-dict keys and the `NUM_PLAYERS`
argument (`none` models both Python `None` and any non-`int` value, which the
source treats identically). Auto-detects the number of player columns from
the `P<n> Name` keys, returns `[]` when the maximum detected number is 0, and
otherwise processes `min(max(NUM_PLAYERS, 2), 4)` columns. -/
def process_for_ocr (cell : String → Option String) (regionKeys : List String)
    (numPlayers : Option ℤ) : List Player :=
  let nums := regionKeys.filterMap parsePlayerNum
  let maxIdx := nums.foldl max 0
  if maxIdx = 0 then []
  else
    let np : ℤ := numPlayers.getD (max (maxIdx : ℤ) 2)
    let np := min (max np 2) 4
    (List.range np.toNat).map (buildPlayer cell regionKeys)

/-! ## Field-edit validation and identity re-resolution
(`cogs/extract_helpers.py`, `cogs/extract_cog.py`) -/

/-- Round-half-to-even of a rational (the model of rounding a nonnegative
float to an integer; used for `f"{x:.1f}"` on the rational `x * 10`). -/
def rndHalfEvenQ (q : ℚ) : ℤ :=
  let n := ⌊q⌋
  let r := q - (n : ℚ)
  if 1 / 2 < r then n + 1
  else if r < 1 / 2 then n
  else if n % 2 = 0 then n else n + 1

/-- `f"{q:.1f}"` on an exact rational. -/
def fmtRatOneDec (q : ℚ) : String := formatTenths (rndHalfEvenQ (q * 10))

/-- The integer-validated fields of `validate_stat`
(`extract_helpers.py` line 22). -/
def INT_VALIDATED_FIELDS : List String :=
  ["Kills", "Shots Fired", "Shots Hit", "Deaths"]

/-- `extract_helpers.validate_stat`: strip, accept the `'N/A'` sentinel
(case-insensitively), parse ints for the four integer-validated fields
(raising = `none`), parse-and-reformat percents for `Accuracy` after
removing every `'%'`, and return anything else verbatim. -/
def validate_stat (field raw : String) : Option PyVal :=
  let r := pyStrip raw
  if pyUpper r = "N/A" then some (.pStr "N/A")
  else if INT_VALIDATED_FIELDS.contains field then
    (pyInt r).map .pInt
  else if field = "Accuracy" then
    (pyFloat (String.mk (r.data.filter (fun c => c ≠ '%')))).map
      (fun q => .pStr (fmtRatOneDec q ++ "%"))
  else some (.pStr r)

/-- `re.sub(r'^(mr|ms|mrs|dr)', '', ·)`: one anchored replacement; the
alternation is ordered, so `"mrs…"` only loses `"mr"` and the `mrs` branch is
unreachable. -/
def dropTitlePrefixes (cs : List Char) : List Char :=
  if cs.take 2 = ['m', 'r'] then cs.drop 2
  else if cs.take 2 = ['m', 's'] then cs.drop 2
  else if cs.take 3 = ['m', 'r', 's'] then cs.drop 3
  else if cs.take 2 = ['d', 'r'] then cs.drop 2
  else cs

/-- `extract_helpers.clean_for_match`: falsy input gives `""`, else
lowercase, keep `[a-z0-9]`, strip one leading title abbreviation. -/
def clean_for_match (name : String) : String :=
  if name = "" then ""
  else
    let cs := name.data.map Char.toLower
    let cs := cs.filter (fun c => c.isLower || c.isDigit)
    String.mk (dropTitlePrefixes cs)

/-- A roster document from the Alliance registration collection (the
projection `{player_name, discord_id, discord_server_id}`); the id fields are
kept as Python values since legacy documents may lack them. -/
structure RosterEntry where
  player_name : String
  discord_id : PyVal
  discord_server_id : PyVal
deriving DecidableEq, Repr

/-- Python truthiness of a stored value. -/
def isTruthy (v : PyVal) : Bool :=
  match v with
  | .pInt n => n ≠ 0
  | .pStr s => s ≠ ""
  | .pNone => false

/-- Clear a record's identity binding (`extract_cog.py` 531-534 / 557-560):
`player_name`, `discord_id`, `discord_server_id` set to `None` and
`clan_name` to `"N/A"`. -/
def clearBinding (player : Player) : Player :=
  let p := setKey player "player_name" .pNone
  let p := setKey p "discord_id" .pNone
  let p := setKey p "discord_server_id" .pNone
  setKey p "clan_name" (.pStr "N/A")

/-- Bind a record to a roster entry (`extract_cog.py` 546-555); `clan`
abstracts `get_clan_name_by_discord_server_id`. -/
def bindTo (player : Player) (entry : RosterEntry) (clan : PyVal → String) :
    Player :=
  let p := setKey player "player_name" (.pStr entry.player_name)
  let p := setKey p "discord_id" entry.discord_id
  let p := setKey p "discord_server_id" entry.discord_server_id
  if isTruthy entry.discord_server_id then
    setKey p "clan_name" (.pStr (clan entry.discord_server_id))
  else setKey p "clan_name" (.pStr "N/A")

/-- The `player_name` branch of `FieldSelect.callback`
(`extract_cog.py` 528-560): clean the operator's text as an OCR name; a falsy
cleanup clears the binding; otherwise re-run identity resolution over the
whole roster through `clean_for_match` + `find_best_match`, bind to the
matched roster entry when a (truthy) match at or above the threshold exists,
and clear the binding otherwise. `db_names_clean.index` cannot fail because
`find_best_match` returns a member of its candidate list; its unreachable
failure arm leaves the record unchanged (the surrounding `except`). -/
def nameEdit (pr ts : String → String → ℚ) (threshold : ℚ) (minLen : ℕ)
    (roster : List RosterEntry) (clan : PyVal → String) (player : Player)
    (raw : String) : Player :=
  match clean_ocr_result raw "Name" with
  | none => clearBinding player
  | some cleaned =>
    let dbNames := roster.map (fun e => e.player_name)
    let ocrClean := clean_for_match cleaned
    let dbClean := dbNames.map clean_for_match
    match find_best_match pr ts threshold minLen ocrClean dbClean with
    | some (best, score) =>
      if best ≠ "" && threshold ≤ score then
        match dbClean.findIdx? (fun n => n = best) with
        | some i => bindTo player (roster.getD i ⟨"", .pNone, .pNone⟩) clan
        | none => player
      else clearBinding player
    | none => clearBinding player

/-- Outcome of one field-edit interaction. -/
inductive EditResult where
  | invalidReported (players : List Player)
  | updated (players : List Player)
deriving DecidableEq, Repr

/-- One reconciliation field edit (`extract_cog.py` 516-562): validate the
operator's stripped reply for the selected field; a `ValueError` is reported
and the player list is returned untouched; on success the `player_name` field
goes through identity re-resolution (on the raw reply text, as in the source)
and every other field is assigned the validated value. -/
def fieldEditStep (pr ts : String → String → ℚ) (threshold : ℚ) (minLen : ℕ)
    (roster : List RosterEntry) (clan : PyVal → String)
    (players : List Player) (idx : ℕ) (field raw : String) : EditResult :=
  match validate_stat field raw with
  | none => .invalidReported players
  | some v =>
    if field = "player_name" then
      .updated (players.set idx
        (nameEdit pr ts threshold minLen roster clan (players.getD idx []) raw))
    else
      .updated (players.set idx (setKey (players.getD idx []) field v))

/-! ## Helper lemmas -/

theorem dropWhile_eq_self_of_all (f : Char → Bool) (cs : List Char)
    (h : ∀ c ∈ cs, f c = false) : cs.dropWhile f = cs := by
  cases cs with
  | nil => rfl
  | cons a l => rw [List.dropWhile_cons, h a (List.mem_cons_self a l)]; simp

theorem stripChars_eq_self (cs : List Char) (h : ∀ c ∈ cs, isPyWS c = false) :
    stripChars cs = cs := by
  unfold stripChars
  rw [dropWhile_eq_self_of_all _ _ h,
    dropWhile_eq_self_of_all _ _ (fun c hc => h c (List.mem_reverse.mp hc)),
    List.reverse_reverse]

theorem isDigit_not_ws (c : Char) (h : c.isDigit = true) : isPyWS c = false := by
  by_contra hw
  simp only [isPyWS, Bool.or_eq_true, decide_eq_true_eq,
    Bool.not_eq_false] at hw
  rcases hw with ((((rfl | rfl) | rfl) | rfl) | rfl) | rfl <;>
    exact absurd h (by decide)

theorem getLast?_mem_of_ne_nil {α : Type} (l : List α) (x : α)
    (h : l.getLast? = some x) : x ∈ l := by
  induction l with
  | nil => simp at h
  | cons a t ih =>
    cases t with
    | nil =>
      simp at h
      subst h
      simp
    | cons b u =>
      rw [List.getLast?_cons_cons] at h
      exact List.mem_cons_of_mem a (ih h)

theorem validDigitGroup_of_digits (cs : List Char) (hne : cs ≠ [])
    (h : ∀ c ∈ cs, c.isDigit = true) : validDigitGroup cs = true := by
  have hnu : ∀ c ∈ cs, c ≠ '_' := by
    intro c hc he
    subst he
    exact absurd (h _ hc) (by decide)
  cases cs with
  | nil => exact absurd rfl hne
  | cons a l =>
    unfold validDigitGroup
    simp only [Bool.and_eq_true]
    refine ⟨⟨⟨⟨?_, ?_⟩, ?_⟩, ?_⟩, ?_⟩
    · rfl
    · rw [List.all_eq_true]
      intro c hc
      simp [h c hc]
    · show a.isDigit = true
      exact h a (List.mem_cons_self a l)
    · rcases he : (a :: l).getLast? with _ | x
      · exact absurd he (by simp [List.getLast?_isSome] at *)
      · exact h x (getLast?_mem_of_ne_nil _ _ he)
    · rw [List.all_eq_true]
      intro p hp
      have h1 := (List.of_mem_zip hp).1
      have := hnu p.1 h1
      simp [this]

theorem pyStrip_mk_digits (cs : List Char)
    (h : ∀ c ∈ cs, c.isDigit = true) : (pyStrip (String.mk cs)).data = cs := by
  show stripChars cs = cs
  exact stripChars_eq_self cs (fun c hc => isDigit_not_ws c (h c hc))

theorem pyInt_all_digits (cs : List Char) (hne : cs ≠ [])
    (h : ∀ c ∈ cs, c.isDigit = true) :
    pyInt (String.mk cs) = some (digitGroupVal cs : ℤ) := by
  unfold pyInt
  rw [pyStrip_mk_digits cs h]
  cases cs with
  | nil => exact absurd rfl hne
  | cons a l =>
    have ha := h a (List.mem_cons_self a l)
    have h1 : a ≠ '+' := fun he => by subst he; exact absurd ha (by decide)
    have h2 : a ≠ '-' := fun he => by subst he; exact absurd ha (by decide)
    show pyIntCore (a :: l) = _
    simp only [pyIntCore]
    rw [if_neg h1, if_neg h2,
      if_pos (validDigitGroup_of_digits _ (by simp) h)]

/-! ### Python dict lemmas -/

theorem find?_map_update_ne (d : Player) (k kk : String) (v : PyVal)
    (hne : kk ≠ k) :
    (d.map (fun p => if p.1 = k then (k, v) else p)).find?
        (fun p => p.1 = kk)
      = d.find? (fun p => p.1 = kk) := by
  induction d with
  | nil => rfl
  | cons p t ih =>
    by_cases hp : p.1 = k
    · rw [List.map_cons, if_pos hp]
      rw [List.find?_cons_of_neg _ (by simp [Ne.symm hne]),
        List.find?_cons_of_neg _ (by simp [hp, Ne.symm hne])]
      exact ih
    · rw [List.map_cons, if_neg hp]
      by_cases hq : p.1 = kk
      · rw [List.find?_cons_of_pos _ (by simp [hq]),
          List.find?_cons_of_pos _ (by simp [hq])]
      · rw [List.find?_cons_of_neg _ (by simp [hq]),
          List.find?_cons_of_neg _ (by simp [hq])]
        exact ih

theorem find?_map_update_self (d : Player) (k : String) (v : PyVal) :
    (d.map (fun p => if p.1 = k then (k, v) else p)).find?
        (fun p => p.1 = k)
      = (d.find? (fun p => p.1 = k)).map (fun _ => (k, v)) := by
  induction d with
  | nil => rfl
  | cons p t ih =>
    by_cases hp : p.1 = k
    · rw [List.map_cons, if_pos hp]
      rw [List.find?_cons_of_pos _ (by simp),
        List.find?_cons_of_pos _ (by simp [hp])]
      rfl
    · rw [List.map_cons, if_neg hp]
      rw [List.find?_cons_of_neg _ (by simp [hp]),
        List.find?_cons_of_neg _ (by simp [hp])]
      exact ih

theorem find?_append_of_none {α : Type} (l₁ l₂ : List α) (p : α → Bool)
    (h : l₁.find? p = none) : (l₁ ++ l₂).find? p = l₂.find? p := by
  induction l₁ with
  | nil => rfl
  | cons a t ih =>
    rcases hp : p a with _ | _
    · rw [List.find?_cons_of_neg _ (by simp [hp])] at h
      rw [List.cons_append, List.find?_cons_of_neg _ (by simp [hp])]
      exact ih h
    · rw [List.find?_cons_of_pos _ hp] at h
      simp at h

theorem getKey_setKey_self (d : Player) (k : String) (v : PyVal) :
    getKey (setKey d k v) k = some v := by
  unfold getKey setKey
  by_cases h : d.any (fun p => p.1 = k)
  · rw [if_pos h, find?_map_update_self]
    have hex : ∃ x ∈ d, (fun p => decide (p.1 = k)) x = true := by
      simpa [List.any_eq_true] using h
    have hs : (d.find? (fun p => p.1 = k)).isSome := List.find?_isSome.mpr hex
    rcases ho : d.find? (fun p => p.1 = k) with _ | q
    · rw [ho] at hs; simp at hs
    · rw [ho]; rfl
  · rw [if_neg h]
    have hnone : d.find? (fun p => p.1 = k) = none := by
      rw [List.find?_eq_none]
      intro x hx hp
      exact h (List.any_eq_true.mpr ⟨x, hx, hp⟩)
    rw [find?_append_of_none _ _ _ hnone]
    simp [List.find?_cons_of_pos]

theorem find?_append_of_some {α : Type} (l₁ l₂ : List α) (p : α → Bool)
    (q : α) (h : l₁.find? p = some q) : (l₁ ++ l₂).find? p = some q := by
  induction l₁ with
  | nil => simp at h
  | cons a t ih =>
    rcases hp : p a with _ | _
    · rw [List.find?_cons_of_neg _ (by simp [hp])] at h
      rw [List.cons_append, List.find?_cons_of_neg _ (by simp [hp])]
      exact ih h
    · rw [List.find?_cons_of_pos _ hp] at h
      rw [List.cons_append, List.find?_cons_of_pos _ hp]
      exact h

theorem getKey_setKey_ne (d : Player) (k kk : String) (v : PyVal)
    (hne : kk ≠ k) : getKey (setKey d k v) kk = getKey d kk := by
  unfold getKey setKey
  by_cases h : d.any (fun p => p.1 = k)
  · rw [if_pos h, find?_map_update_ne _ _ _ _ hne]
  · rw [if_neg h]
    rcases ho : d.find? (fun p => p.1 = kk) with _ | q
    · rw [find?_append_of_none _ _ _ ho, ho,
        List.find?_cons_of_neg _ (by simp [Ne.symm hne])]
      rfl
    · rw [find?_append_of_some _ _ _ _ ho, ho]

/-! ### Accuracy lemmas -/

theorem rnd_tenths_le_1000 (sf m : ℤ) (hsf : 0 < sf) (hm : m ≤ sf) :
    rndHalfEvenTenths (m * 1000) sf ≤ 1000 := by
  unfold rndHalfEvenTenths
  have h1 := Int.ediv_add_emod (m * 1000) sf
  have h2 := Int.emod_nonneg (m * 1000) (by omega : sf ≠ 0)
  have h3 := Int.emod_lt_of_pos (m * 1000) hsf
  have hnum : m * 1000 ≤ sf * 1000 := by
    exact mul_le_mul_of_nonneg_right hm (by norm_num)
  have hq : m * 1000 / sf ≤ 1000 := by
    have := Int.ediv_le_ediv hsf hnum
    rwa [Int.mul_ediv_cancel_left 1000 (by omega : sf ≠ 0)] at this
  have hq1000 : m * 1000 / sf = 1000 → m * 1000 % sf = 0 := by
    intro he
    rw [he] at h1
    omega
  split_ifs with c1 c2 c3 <;> omega

theorem rnd_tenths_nonneg (sf m : ℤ) (hsf : 0 < sf) (hm : 0 ≤ m) :
    0 ≤ rndHalfEvenTenths (m * 1000) sf := by
  unfold rndHalfEvenTenths
  have hq : 0 ≤ m * 1000 / sf := Int.ediv_nonneg (by positivity) (by omega)
  split_ifs <;> omega

/-- The two duplicated accuracy computations are the same function. -/
theorem confirmAccuracy_eq_process (sf sh : ℤ) :
    confirmAccuracyStr sf sh = processAccuracyStr sf sh := rfl

/-- Clamping is idempotent: the accuracy computed from the raw hit count
equals the accuracy computed from the stored (clamped) hit count. -/
theorem processAccuracy_clamp (sf sh : ℤ) :
    processAccuracyStr sf (if sf < sh then sf else sh) =
      processAccuracyStr sf sh := by
  simp only [processAccuracyStr]
  split_ifs <;> simp_all

/-- The code's accuracy computation satisfies the spec's formula on
nonnegative shot counts. -/
theorem processAccuracy_eq_spec (sf sh : ℕ) :
    processAccuracyStr (sf : ℤ) (sh : ℤ) = specAccuracyStr sf sh := by
  simp only [processAccuracyStr, specAccuracyStr, specAccuracyTenths]
  rcases Nat.eq_zero_or_pos sf with h | h
  · subst h
    norm_num
  · have hsf : (0 : ℤ) < (sf : ℤ) := by exact_mod_cast h
    have hsh2 : (if (sf : ℤ) < (sh : ℤ) then (sf : ℤ) else (sh : ℤ))
        = min (sh : ℤ) (sf : ℤ) := by
      split_ifs with hc <;> omega
    rw [if_pos hsf, if_neg (by omega : ¬ sf = 0), hsh2,
      min_eq_left (rnd_tenths_le_1000 _ _ hsf (by omega))]

/-- The spec-side accuracy value never exceeds 100.0% (1000 tenths). -/
theorem specAccuracyTenths_le_1000 (sf sh : ℕ) :
    specAccuracyTenths sf sh ≤ 1000 := by
  unfold specAccuracyTenths
  split_ifs with h
  · norm_num
  · exact rnd_tenths_le_1000 _ _ (by exact_mod_cast Nat.pos_of_ne_zero h)
      (by omega)

/-! ### Numeric-field cleanup produces digit strings -/

theorem digits_filter_result (L : List Char) (c : String)
    (h : (if L.filter Char.isDigit = [] then none
          else some (String.mk (L.filter Char.isDigit))) = some c) :
    c.data ≠ [] ∧ ∀ ch ∈ c.data, ch.isDigit = true := by
  by_cases he : L.filter Char.isDigit = []
  · rw [if_pos he] at h
    simp at h
  · rw [if_neg he, Option.some_inj] at h
    subst h
    exact ⟨by simpa using he, fun ch hch => (List.mem_filter.mp hch).2⟩

theorem clean_numeric_digits (raw key : String)
    (hk : NUMERIC_FIELDS.contains key = true) (c : String)
    (h : clean_ocr_result raw key = some c) :
    c.data ≠ [] ∧ ∀ ch ∈ c.data, ch.isDigit = true := by
  have hname : key ≠ "Name" := by
    intro he
    subst he
    exact absurd hk (by decide)
  by_cases hr : raw = ""
  · rw [clean_ocr_result, if_pos hr] at h
    simp at h
  · rw [clean_ocr_result, if_neg hr] at h
    simp only [if_neg hname, if_pos hk] at h
    exact digits_filter_result _ _ h

theorem pyInt_clean_nonneg (raw key : String)
    (hk : NUMERIC_FIELDS.contains key = true) (c : String)
    (h : clean_ocr_result raw key = some c) : 0 ≤ (pyInt c).getD 0 := by
  obtain ⟨hne, hdig⟩ := clean_numeric_digits raw key hk c h
  have hv : pyInt c = some (digitGroupVal c.data : ℤ) := by
    have := pyInt_all_digits c.data hne hdig
    simpa using this
  rw [hv]
  simp

/-- The field loop keeps the shot accumulators nonnegative: they start at 0
and are only ever overwritten with parses of digit-only cleaned strings. -/
theorem loop_shots_nonneg (cell : String → Option String)
    (keys : List String) (pi : ℕ) (fields : List String) :
    ∀ st : LoopSt, 0 ≤ st.sf → 0 ≤ st.sh →
      0 ≤ (fields.foldl (cellStep cell keys pi) st).sf ∧
      0 ≤ (fields.foldl (cellStep cell keys pi) st).sh := by
  induction fields with
  | nil => exact fun st h1 h2 => ⟨h1, h2⟩
  | cons key rest ih =>
    intro st h1 h2
    rw [List.foldl_cons]
    have hstep : 0 ≤ (cellStep cell keys pi st key).sf ∧
        0 ≤ (cellStep cell keys pi st key).sh := by
      rcases hm : cell ("P" ++ toString (pi + 1) ++ " " ++ key) with _ | raw
      · simp only [cellStep, hm]
        split_ifs <;> exact ⟨h1, h2⟩
      · rcases hcl : clean_ocr_result raw key with _ | c
        · simp only [cellStep, hm, hcl]
          split_ifs <;> exact ⟨h1, h2⟩
        · simp only [cellStep, hm, hcl]
          split_ifs with hc hn hsf hsh hl
          · exact ⟨h1, h2⟩
          · exact ⟨h1, h2⟩
          · subst hsf
            exact ⟨pyInt_clean_nonneg raw _ (by decide) c hcl, h2⟩
          · subst hsh
            exact ⟨h1, pyInt_clean_nonneg raw _ (by decide) c hcl⟩
          · exact ⟨h1, h2⟩
          · exact ⟨h1, h2⟩
    exact ih _ hstep.1 hstep.2

/-- Every assembled player record carries clamped shot counts and the
computed accuracy string. -/
theorem buildPlayer_fields (cell : String → Option String) (keys : List String)
    (pi : ℕ) :
    ∃ sf sh : ℕ, sh ≤ sf ∧
      getKey (buildPlayer cell keys pi) "Shots Fired" = some (.pInt (sf : ℤ)) ∧
      getKey (buildPlayer cell keys pi) "Shots Hit" = some (.pInt (sh : ℤ)) ∧
      getKey (buildPlayer cell keys pi) "Accuracy" =
        some (.pStr (specAccuracyStr sf sh)) := by
  obtain ⟨hsf0, hsh0⟩ := loop_shots_nonneg cell keys pi ALL_FIELDS ⟨[], 0, 0⟩
    le_rfl le_rfl
  simp only [buildPlayer]
  generalize hst : ALL_FIELDS.foldl (cellStep cell keys pi) ⟨[], 0, 0⟩ = st
    at hsf0 hsh0 ⊢
  have hshc0 : 0 ≤ (if st.sf < st.sh then st.sf else st.sh) := by
    split_ifs <;> assumption
  have hle : (if st.sf < st.sh then st.sf else st.sh) ≤ st.sf := by
    split_ifs <;> omega
  generalize hsh2 : (if st.sf < st.sh then st.sf else st.sh) = shv
    at hshc0 hle ⊢
  set a := st.sf.toNat with ha
  set b := shv.toNat with hb
  have hc1 : (a : ℤ) = st.sf := Int.toNat_of_nonneg hsf0
  have hc2 : (b : ℤ) = shv := Int.toNat_of_nonneg hshc0
  refine ⟨a, b, by omega, ?_, ?_, ?_⟩
  · split_ifs with hj
    · rw [getKey_setKey_ne _ _ _ _ (by decide),
        getKey_setKey_ne _ _ _ _ (by decide),
        getKey_setKey_ne _ _ _ _ (by decide),
        getKey_setKey_ne _ _ _ _ (by decide),
        getKey_setKey_ne _ _ _ _ (by decide),
        getKey_setKey_ne _ _ _ _ (by decide),
        getKey_setKey_ne _ _ _ _ (by decide),
        getKey_setKey_self, hc1]
    · rw [getKey_setKey_ne _ _ _ _ (by decide),
        getKey_setKey_ne _ _ _ _ (by decide),
        getKey_setKey_ne _ _ _ _ (by decide),
        getKey_setKey_ne _ _ _ _ (by decide),
        getKey_setKey_ne _ _ _ _ (by decide),
        getKey_setKey_ne _ _ _ _ (by decide),
        getKey_setKey_self, hc1]
  · split_ifs with hj
    · rw [getKey_setKey_ne _ _ _ _ (by decide),
        getKey_setKey_ne _ _ _ _ (by decide),
        getKey_setKey_ne _ _ _ _ (by decide),
        getKey_setKey_ne _ _ _ _ (by decide),
        getKey_setKey_ne _ _ _ _ (by decide),
        getKey_setKey_ne _ _ _ _ (by decide),
        getKey_setKey_self, hc2]
    · rw [getKey_setKey_ne _ _ _ _ (by decide),
        getKey_setKey_ne _ _ _ _ (by decide),
        getKey_setKey_ne _ _ _ _ (by decide),
        getKey_setKey_ne _ _ _ _ (by decide),
        getKey_setKey_ne _ _ _ _ (by decide),
        getKey_setKey_self, hc2]
  · split_ifs with hj
    · rw [getKey_setKey_ne _ _ _ _ (by decide), getKey_setKey_self,
        ← processAccuracy_clamp st.sf st.sh, hsh2, ← hc2, ← hc1,
        processAccuracy_eq_spec]
    · rw [getKey_setKey_self,
        ← processAccuracy_clamp st.sf st.sh, hsh2, ← hc2, ← hc1,
        processAccuracy_eq_spec]

/-- Every record in `process_for_ocr`'s output is an assembled player. -/
theorem mem_process_eq_buildPlayer (cell : String → Option String)
    (keys : List String) (np : Option ℤ) (p : Player)
    (hp : p ∈ process_for_ocr cell keys np) :
    ∃ pi : ℕ, p = buildPlayer cell keys pi := by
  simp only [process_for_ocr] at hp
  split_ifs at hp with h
  · simp at hp
  · obtain ⟨pi, _, he⟩ := List.mem_map.mp hp
    exact ⟨pi, he.symm⟩

set_option maxHeartbeats 1000000 in
/-- C1. For every player record produced by extraction (`process_for_ocr`),
the stored `Shots Hit` is clamped to at most `Shots Fired` and the stored
`Accuracy` equals the spec's formula
`round(Shots Hit / Shots Fired × 100, 1 decimal)` rendered as a one-decimal
percent string (`"0.0%"` when `Shots Fired = 0`); the commit-time recheck
(`ConfirmationView.confirm`) computes exactly the same formula; the accuracy
value never exceeds 100.0% (1000 tenths); and
`Accuracy(fired=92, hits=81) = "88.0%"`, while `Accuracy(fired=0, hits=5)`
clamps the hits and yields `"0.0%"`. -/
theorem C1_accuracy_formula :
    (∀ (cell : String → Option String) (keys : List String) (np : Option ℤ)
        (p : Player), p ∈ process_for_ocr cell keys np →
      ∃ sf sh : ℕ, sh ≤ sf ∧
        getKey p "Shots Fired" = some (.pInt (sf : ℤ)) ∧
        getKey p "Shots Hit" = some (.pInt (sh : ℤ)) ∧
        getKey p "Accuracy" = some (.pStr (specAccuracyStr sf sh)))
    ∧ (∀ sf sh : ℕ, confirmAccuracyStr (sf : ℤ) (sh : ℤ) = specAccuracyStr sf sh)
    ∧ (∀ sf sh : ℕ, specAccuracyTenths sf sh ≤ 1000)
    ∧ specAccuracyStr 92 81 = "88.0%"
    ∧ specAccuracyStr 0 5 = specAccuracyStr 0 0
    ∧ specAccuracyStr 0 5 = "0.0%" := by
  have hA : specAccuracyStr 92 81 = "88.0%" := by decide
  have hB : specAccuracyStr 0 5 = specAccuracyStr 0 0 := by decide
  have hC : specAccuracyStr 0 5 = "0.0%" := by decide
  refine ⟨?_, ?_, specAccuracyTenths_le_1000, hA, hB, hC⟩
  · intro cell keys np p hp
    obtain ⟨pi, he⟩ := mem_process_eq_buildPlayer cell keys np p hp
    subst he
    exact buildPlayer_fields cell keys pi
  · intro sf sh
    rw [confirmAccuracy_eq_process, processAccuracy_eq_spec]

/-- Concrete instantiation of `C1_accuracy_formula` on an extraction whose
OCR reads 92 shots fired and 81 hit for player 1. -/
theorem C1_accuracy_formula_witness :
    ∃ sf sh : ℕ, sh ≤ sf ∧
      getKey
          (buildPlayer
            (fun l => if l = "P1 Shots Fired" then some "92"
              else if l = "P1 Shots Hit" then some "81" else none)
            ["P1 Name", "P1 Shots Fired", "P1 Shots Hit"] 0)
          "Shots Fired" = some (.pInt (sf : ℤ)) ∧
      getKey
          (buildPlayer
            (fun l => if l = "P1 Shots Fired" then some "92"
              else if l = "P1 Shots Hit" then some "81" else none)
            ["P1 Name", "P1 Shots Fired", "P1 Shots Hit"] 0)
          "Shots Hit" = some (.pInt (sh : ℤ)) ∧
      getKey
          (buildPlayer
            (fun l => if l = "P1 Shots Fired" then some "92"
              else if l = "P1 Shots Hit" then some "81" else none)
            ["P1 Name", "P1 Shots Fired", "P1 Shots Hit"] 0)
          "Accuracy" = some (.pStr (specAccuracyStr sf sh)) :=
  C1_accuracy_formula.1
    (fun l => if l = "P1 Shots Fired" then some "92"
      else if l = "P1 Shots Hit" then some "81" else none)
    ["P1 Name", "P1 Shots Fired", "P1 Shots Hit"] none
    (buildPlayer
      (fun l => if l = "P1 Shots Fired" then some "92"
        else if l = "P1 Shots Hit" then some "81" else none)
      ["P1 Name", "P1 Shots Fired", "P1 Shots Hit"] 0)
    (by
      rw [show process_for_ocr
          (fun l => if l = "P1 Shots Fired" then some "92"
            else if l = "P1 Shots Hit" then some "81" else none)
          ["P1 Name", "P1 Shots Fired", "P1 Shots Hit"] none
        = [buildPlayer
            (fun l => if l = "P1 Shots Fired" then some "92"
              else if l = "P1 Shots Hit" then some "81" else none)
            ["P1 Name", "P1 Shots Fired", "P1 Shots Hit"] 0,
           buildPlayer
            (fun l => if l = "P1 Shots Fired" then some "92"
              else if l = "P1 Shots Hit" then some "81" else none)
            ["P1 Name", "P1 Shots Fired", "P1 Shots Hit"] 1] from rfl]
      exact List.mem_cons_self _ _)

/-- C3. Every mission id issued on the primary atomic-increment path is at
least 7100719 (strictly above the counter floor 7100718); the id issued from
the resulting counter state is strictly larger (hence distinct); and the
display format left-pads the decimal digits with zeros to width 7 (never
dropping digits, so issued ids render with all their digits and length ≥ 7). -/
theorem C3_mission_ids (counter : Option ℤ) :
    missionSeedValue + 1 ≤ (nextMissionId counter).1 ∧
    (nextMissionId counter).1
      < (nextMissionId (some (nextMissionId counter).2)).1 ∧
    7 ≤ (formatMissionId (nextMissionId counter).1).length ∧
    ∃ k, formatMissionId (nextMissionId counter).1 =
      String.mk (List.replicate k '0')
        ++ toString (nextMissionId counter).1 := by
  have hfmt : ∀ n : ℤ, 7 ≤ (formatMissionId n).length ∧
      ∃ k, formatMissionId n = String.mk (List.replicate k '0') ++ toString n := by
    intro n
    simp only [formatMissionId]
    split_ifs with h
    · constructor
      · rw [String.length_append]
        have : (String.mk (List.replicate (7 - (toString n).length) '0')).length
            = 7 - (toString n).length := by
          show (List.replicate (7 - (toString n).length) '0').length = _
          rw [List.length_replicate]
        omega
      · exact ⟨7 - (toString n).length, rfl⟩
    · constructor
      · omega
      · refine ⟨0, ?_⟩
        show toString n = String.mk [] ++ toString n
        rcases hs : toString n with ⟨d⟩
        rfl
  refine ⟨?_, ?_, (hfmt _).1, (hfmt _).2⟩
  · simp only [nextMissionId, missionSeedValue]
    rcases counter with _ | c <;>
      simp only [Option.getD_none, Option.getD_some] <;>
      split_ifs <;> omega
  · simp only [nextMissionId, missionSeedValue]
    rcases counter with _ | c <;>
      simp only [Option.getD_none, Option.getD_some] <;>
      split_ifs <;> omega

/-- C2 counterexample. `(1365, 768)` is a known resolution profile and a
1365×768 image is within the ±5px tolerance of it, yet `define_regions` does
not select that profile: it falls back to the scaled 1920×1080 reference, so
the `P1 Name` box is the scaled reference box `(92, 142, 255, 163)` and not
the profile's own `(92, 142, 256, 164)`. -/
theorem C2_counterexample :
    (1365, 768) ∈ KNOWN_RESOLUTIONS.map (fun e => e.1)
    ∧ is_close_enough 1365 768 1365 768 TOLERANCE = true
    ∧ chooseProfile (some (768, 1365)) = (1920, 1080)
    ∧ chooseProfile (some (768, 1365)) ≠ (1365, 768)
    ∧ (define_regions (some (768, 1365))).lookup "P1 Name"
        = some ⟨92, 142, 255, 163⟩
    ∧ ((profileOf (1365, 768)).1.lookup "Name" = some ⟨92, 142, 256, 164⟩) := by
  decide

/-- C2 (amended). The ±5px tolerance check is applied only to the 1280×800
and 1920×1080 profiles, which are selected when it passes (1280×800 takes
priority); the 1365×768 and 1835×768 table entries are never selected; every
other shape falls back to the 1920×1080 reference profile, whose boxes are
scaled by the independent factors (width/1920, height/1080) — e.g. a
1600×900 image uses the reference `Name` box (130, 200, 360, 230) scaled to
(108, 166, 300, 191) and, for player 2 (offset 460), (491, 166, 683, 191). -/
theorem C2_profile_selection_amended :
    (∀ h w : ℕ,
      (is_close_enough (w : ℤ) (h : ℤ) 1280 800 TOLERANCE = true →
        chooseProfile (some (h, w)) = (1280, 800))
      ∧ (is_close_enough (w : ℤ) (h : ℤ) 1280 800 TOLERANCE = false →
          chooseProfile (some (h, w)) = (1920, 1080)))
    ∧ (∀ shape, chooseProfile shape = (1280, 800)
        ∨ chooseProfile shape = (1920, 1080))
    ∧ scaleBox (adjust_region ⟨130, 200, 360, 230⟩ (0, 0) 0 460) 1600 900
        1920 1080 = ⟨108, 166, 300, 191⟩
    ∧ scaleBox (adjust_region ⟨130, 200, 360, 230⟩ (0, 0) 1 460) 1600 900
        1920 1080 = ⟨491, 166, 683, 191⟩
    ∧ (define_regions (some (900, 1600))).lookup "P1 Name"
        = some ⟨108, 166, 300, 191⟩
    ∧ (define_regions (some (900, 1600))).lookup "P2 Name"
        = some ⟨491, 166, 683, 191⟩ := by
  refine ⟨?_, ?_, by decide, by decide, by decide, by decide⟩
  · intro h w
    constructor
    · intro hc
      simp [chooseProfile, hc]
    · intro hc
      simp only [chooseProfile, hc]
      split_ifs <;> simp_all
  · intro shape
    rcases shape with _ | ⟨h, w⟩
    · right; rfl
    · simp only [chooseProfile]
      split_ifs <;> simp

/-- Concrete instantiation of `C2_profile_selection_amended`: an exactly
1280×800 image passes the tolerance check and selects the 1280×800
profile. -/
theorem C2_profile_selection_amended_witness :
    chooseProfile (some (800, 1280)) = (1280, 800) :=
  (C2_profile_selection_amended.1 800 1280).1 (by decide)

/-! ### C9: nonnegativity of all produced box coordinates -/

theorem adjust_region_nonneg (b : Box) (off : ℤ × ℤ) (pi : ℕ) (po : ℤ) :
    0 ≤ (adjust_region b off pi po).left ∧
    0 ≤ (adjust_region b off pi po).top ∧
    0 ≤ (adjust_region b off pi po).right ∧
    0 ≤ (adjust_region b off pi po).bottom :=
  ⟨le_max_left 0 _, le_max_left 0 _, le_max_left 0 _, le_max_left 0 _⟩

theorem scaleCoord_nonneg (c : ℤ) (actual base : ℕ) (hc : 0 ≤ c) :
    0 ≤ scaleCoord c actual base :=
  Int.ediv_nonneg (mul_nonneg hc (Int.ofNat_nonneg actual))
    (Int.ofNat_nonneg base)

theorem scaleBox_nonneg (b : Box) (w h bw bh : ℕ) (h1 : 0 ≤ b.left)
    (h2 : 0 ≤ b.top) (h3 : 0 ≤ b.right) (h4 : 0 ≤ b.bottom) :
    0 ≤ (scaleBox b w h bw bh).left ∧ 0 ≤ (scaleBox b w h bw bh).top ∧
    0 ≤ (scaleBox b w h bw bh).right ∧ 0 ≤ (scaleBox b w h bw bh).bottom :=
  ⟨scaleCoord_nonneg _ _ _ h1, scaleCoord_nonneg _ _ _ h2,
   scaleCoord_nonneg _ _ _ h3, scaleCoord_nonneg _ _ _ h4⟩

/-- C9. For every resolution profile in the table, every base field box,
every player index and every image shape, all four coordinates of the box
after the per-player horizontal offset and after scaling are nonnegative;
consequently every box in a `define_regions` output is nonnegative. -/
theorem C9_boxes_nonneg :
    (∀ e ∈ KNOWN_RESOLUTIONS, ∀ kb ∈ e.2.1, ∀ (pi w h : ℕ),
      0 ≤ (scaleBox (adjust_region kb.2 (0, 0) pi e.2.2) w h e.1.1 e.1.2).left ∧
      0 ≤ (scaleBox (adjust_region kb.2 (0, 0) pi e.2.2) w h e.1.1 e.1.2).top ∧
      0 ≤ (scaleBox (adjust_region kb.2 (0, 0) pi e.2.2) w h e.1.1 e.1.2).right ∧
      0 ≤ (scaleBox (adjust_region kb.2 (0, 0) pi e.2.2) w h e.1.1 e.1.2).bottom)
    ∧ (∀ shape : Option (ℕ × ℕ), ∀ lb ∈ define_regions shape,
      0 ≤ lb.2.left ∧ 0 ≤ lb.2.top ∧ 0 ≤ lb.2.right ∧ 0 ≤ lb.2.bottom) := by
  constructor
  · intro e _ kb _ pi w h
    obtain ⟨a1, a2, a3, a4⟩ := adjust_region_nonneg kb.2 (0, 0) pi e.2.2
    exact scaleBox_nonneg _ _ _ _ _ a1 a2 a3 a4
  · intro shape lb hlb
    simp only [define_regions] at hlb
    obtain ⟨pi, _, hm⟩ := List.mem_flatMap.mp hlb
    obtain ⟨kb, _, he⟩ := List.mem_map.mp hm
    obtain ⟨a1, a2, a3, a4⟩ := adjust_region_nonneg kb.2 (0, 0) pi
      (profileOf (chooseProfile shape)).2
    have := scaleBox_nonneg (adjust_region kb.2 (0, 0) pi
        (profileOf (chooseProfile shape)).2)
      (match shape with | none => (chooseProfile shape).1 | some (h, w) => w)
      (match shape with | none => (chooseProfile shape).2 | some (h, w) => h)
      (chooseProfile shape).1 (chooseProfile shape).2 a1 a2 a3 a4
    rw [← he]
    rcases shape with _ | ⟨h, w⟩ <;> exact this

/-- Concrete instantiation of `C9_boxes_nonneg` on the 1280×800 profile's
`Name` box for player index 2 at a 1280×800 image. -/
theorem C9_boxes_nonneg_witness :
    0 ≤ (scaleBox (adjust_region ⟨87, 133, 262, 152⟩ (0, 0) 2 305) 1280 800
        1280 800).left ∧
    0 ≤ (scaleBox (adjust_region ⟨87, 133, 262, 152⟩ (0, 0) 2 305) 1280 800
        1280 800).top ∧
    0 ≤ (scaleBox (adjust_region ⟨87, 133, 262, 152⟩ (0, 0) 2 305) 1280 800
        1280 800).right ∧
    0 ≤ (scaleBox (adjust_region ⟨87, 133, 262, 152⟩ (0, 0) 2 305) 1280 800
        1280 800).bottom :=
  C9_boxes_nonneg.1 ((1280, 800), (regions1280, 305)) (by decide)
    ("Name", ⟨87, 133, 262, 152⟩) (by decide) 2 1280 800

/-! ### C10: player-column count -/

theorem le_foldl_max (l : List ℕ) : ∀ a : ℕ, a ≤ l.foldl max a := by
  induction l with
  | nil => exact fun a => le_rfl
  | cons x t ih =>
    intro a
    rw [List.foldl_cons]
    exact le_trans (le_max_left a x) (ih (max a x))

theorem mem_le_foldl_max (l : List ℕ) (x : ℕ) (hx : x ∈ l) :
    ∀ a : ℕ, x ≤ l.foldl max a := by
  induction l with
  | nil => simp at hx
  | cons y t ih =>
    intro a
    rw [List.foldl_cons]
    rcases List.mem_cons.mp hx with rfl | hm
    · exact le_trans (le_max_right a x) (le_foldl_max t (max a x))
    · exact ih hm (max a y)

theorem foldl_max_zero (l : List ℕ) (h : ∀ x ∈ l, x = 0) :
    l.foldl max 0 = 0 := by
  induction l with
  | nil => rfl
  | cons x t ih =>
    rw [List.foldl_cons, h x (List.mem_cons_self x t)]
    exact ih (fun y hy => h y (List.mem_cons_of_mem x hy))

/-- C10 counterexample. `"P0 Name"` is a region key of the form `P<n> Name`
(with `n = 0`), yet `process_for_ocr` returns the empty list for a region
set containing it, not a 2-to-4-entry list. -/
theorem C10_counterexample :
    parsePlayerNum "P0 Name" = some 0
    ∧ process_for_ocr (fun _ => none) ["P0 Name"] none = [] := by
  constructor
  · decide
  · rfl

/-- C10 (amended). `process_for_ocr` returns the empty list when every
region key of the form `P<n> Name` has `n = 0` (in particular when none is
present); when a key `P<n> Name` with `n ≥ 1` is present it processes a
player-column count clamped into `[2, 4]` — regardless of the `NUM_PLAYERS`
argument (including `None`/non-int, modelled as `none`) — and the returned
list has exactly that many entries. -/
theorem C10_player_count_amended (cell : String → Option String)
    (keys : List String) (np : Option ℤ) :
    ((∀ k ∈ keys, ∀ n, parsePlayerNum k = some n → n = 0) →
      process_for_ocr cell keys np = [])
    ∧ ((∃ k ∈ keys, ∃ n, parsePlayerNum k = some n ∧ 1 ≤ n) →
        2 ≤ (process_for_ocr cell keys np).length ∧
        (process_for_ocr cell keys np).length ≤ 4) := by
  constructor
  · intro h
    have hz : (keys.filterMap parsePlayerNum).foldl max 0 = 0 := by
      apply foldl_max_zero
      intro x hx
      obtain ⟨k, hk, hp⟩ := List.mem_filterMap.mp hx
      exact h k hk x hp
    simp only [process_for_ocr, hz]
    rfl
  · rintro ⟨k, hk, n, hpn, hn⟩
    have hmem : n ∈ keys.filterMap parsePlayerNum :=
      List.mem_filterMap.mpr ⟨k, hk, hpn⟩
    have hmax : 1 ≤ (keys.filterMap parsePlayerNum).foldl max 0 :=
      le_trans hn (mem_le_foldl_max _ n hmem 0)
    simp only [process_for_ocr]
    rw [if_neg (by omega)]
    rw [List.length_map, List.length_range]
    rcases np with _ | k2
    · simp only [Option.getD_none]
      constructor <;> omega
    · simp only [Option.getD_some]
      constructor <;> omega

/-- Concrete instantiation of `C10_player_count_amended`: a region set with
only `P1 Name` still yields at least 2 (and at most 4) player entries. -/
theorem C10_player_count_amended_witness :
    2 ≤ (process_for_ocr (fun _ => none) ["P1 Name"] none).length ∧
    (process_for_ocr (fun _ => none) ["P1 Name"] none).length ≤ 4 :=
  (C10_player_count_amended (fun _ => none) ["P1 Name"] none).2
    ⟨"P1 Name", by decide, 1, by decide, by decide⟩

/-! ### C8: ordered preprocessing variants in `perform_ocr` -/

theorem performOcrLoop_none (ocrOut recheckOut : ℕ → Option String)
    (label : String) (L : List ℕ)
    (h : ∀ i ∈ L, ocrOut i = none ∨ ∃ s, ocrOut i = some s ∧ pyStrip s = "") :
    performOcrLoop ocrOut recheckOut label L = none := by
  induction L with
  | nil => rfl
  | cons i t ih =>
    rcases h i (List.mem_cons_self i t) with hn | ⟨s, hs, he⟩
    · simp only [performOcrLoop, hn]
    · simp only [performOcrLoop, hs, he, if_true]
      exact ih (fun j hj => h j (List.mem_cons_of_mem _ hj))

theorem performOcrLoop_skip (ocrOut recheckOut : ℕ → Option String)
    (label : String) (L1 L2 : List ℕ)
    (h : ∀ i ∈ L1, ∃ s, ocrOut i = some s ∧ pyStrip s = "") :
    performOcrLoop ocrOut recheckOut label (L1 ++ L2)
      = performOcrLoop ocrOut recheckOut label L2 := by
  induction L1 with
  | nil => rfl
  | cons i t ih =>
    obtain ⟨s, hs, he⟩ := h i (List.mem_cons_self i t)
    rw [List.cons_append]
    simp only [performOcrLoop, hs, he, if_true]
    exact ih (fun j hj => h j (List.mem_cons_of_mem _ hj))

theorem performOcrLoop_hit_plain (ocrOut recheckOut : ℕ → Option String)
    (label : String) (k : ℕ) (L2 : List ℕ) (s : String)
    (hs : ocrOut k = some s) (hne : ¬ pyStrip s = "")
    (hz : ¬(zeroProneFields.contains label = true
      ∧ (pyStrip s = "8" ∨ pyStrip s = "88"))) :
    performOcrLoop ocrOut recheckOut label (k :: L2) = some (pyStrip s) := by
  have hb : ¬((zeroProneFields.contains label
      && (decide (pyStrip s = "8") || decide (pyStrip s = "88"))) = true) := by
    simp only [Bool.and_eq_true, Bool.or_eq_true, decide_eq_true_eq]
    exact hz
  simp only [performOcrLoop, hs]
  rw [if_neg hne, if_neg hb]

theorem performOcrLoop_hit_recheck (ocrOut recheckOut : ℕ → Option String)
    (label : String) (k : ℕ) (L2 : List ℕ) (s : String)
    (hs : ocrOut k = some s) (hne : ¬ pyStrip s = "")
    (hz : zeroProneFields.contains label = true)
    (h8 : pyStrip s = "8" ∨ pyStrip s = "88") :
    performOcrLoop ocrOut recheckOut label (k :: L2) = some (pyStrip s)
    ∨ ∃ r2, recheckOut k = some r2 ∧
        performOcrLoop ocrOut recheckOut label (k :: L2)
          = some (pyStrip r2) := by
  have hc : (zeroProneFields.contains label
      && (decide (pyStrip s = "8") || decide (pyStrip s = "88"))) = true := by
    simp only [Bool.and_eq_true, Bool.or_eq_true, decide_eq_true_eq]
    exact ⟨hz, h8⟩
  simp only [performOcrLoop, hs]
  rw [if_neg hne, if_pos hc]
  rcases hr : recheckOut k with _ | r2
  · left; rfl
  · by_cases hcond : pyStrip r2 ≠ "" ∧ pyStrip r2 ≠ pyStrip s
    · right
      refine ⟨r2, rfl, ?_⟩
      have hcb : (decide (pyStrip r2 ≠ "")
          && decide (pyStrip r2 ≠ pyStrip s)) = true := by
        simp only [Bool.and_eq_true, decide_eq_true_eq]
        exact hcond
      exact if_pos hcb
    · left
      have hcb : ¬((decide (pyStrip r2 ≠ "")
          && decide (pyStrip r2 ≠ pyStrip s)) = true) := by
        simp only [Bool.and_eq_true, decide_eq_true_eq]
        exact hcond
      exact if_neg hcb

theorem range6_decompose (k : ℕ) (hk : k < 6) :
    ∃ L2, List.range 6 = List.range k ++ k :: L2 := by
  refine ⟨(List.range (5 - k)).map (fun j => k + 1 + j), ?_⟩
  interval_cases k <;> decide

/-- C8 counterexample. For the zero-prone field `Melee Kills`, the first
variant's non-empty text `"8"` is not what `perform_ocr` returns: the second
no-`'8'` pass reads `"0"` and its result replaces the first reading. -/
theorem C8_counterexample :
    perform_ocr (fun i => if i = 0 then some "8" else some "")
        (fun _ => some "0") "Melee Kills" = some "0"
    ∧ pyStrip "8" = "8" ∧ ("0" : String) ≠ "8" := by
  refine ⟨rfl, rfl, by decide⟩

/-- C8 (amended). For every field box, `perform_ocr` tries the fixed ordered
six-variant preprocessing list and returns the first variant's non-empty
(stripped) text — except that for the zero-prone fields (Melee Kills,
Samples Extracted) a first reading of `"8"`/`"88"` may be replaced by the
result of a second no-`'8'` pass; if every variant yields empty text, or an
internal error occurs before any variant succeeds, it returns the
`None` marker (never an exception, which the outer handler converts to
`None`); and the caller stores the placeholder `"0"` for a field whose
extraction returned `None`, so assembly continues. -/
theorem C8_extraction_amended :
    (∀ (ocrOut recheckOut : ℕ → Option String) (label : String),
      (∀ i, i < 6 → ocrOut i = none ∨ ∃ s, ocrOut i = some s ∧ pyStrip s = "") →
      perform_ocr ocrOut recheckOut label = none)
    ∧ (∀ (ocrOut recheckOut : ℕ → Option String) (label : String) (k : ℕ)
        (s : String), k < 6 →
      (∀ i, i < k → ∃ t, ocrOut i = some t ∧ pyStrip t = "") →
      ocrOut k = some s → ¬ pyStrip s = "" →
      ¬(zeroProneFields.contains label = true
        ∧ (pyStrip s = "8" ∨ pyStrip s = "88")) →
      perform_ocr ocrOut recheckOut label = some (pyStrip s))
    ∧ (∀ (ocrOut recheckOut : ℕ → Option String) (label : String) (k : ℕ)
        (s : String), k < 6 →
      (∀ i, i < k → ∃ t, ocrOut i = some t ∧ pyStrip t = "") →
      ocrOut k = some s → ¬ pyStrip s = "" →
      zeroProneFields.contains label = true →
      (pyStrip s = "8" ∨ pyStrip s = "88") →
      perform_ocr ocrOut recheckOut label = some (pyStrip s)
      ∨ ∃ r2, recheckOut k = some r2 ∧
          perform_ocr ocrOut recheckOut label = some (pyStrip r2))
    ∧ (∀ (cell : String → Option String) (keys : List String) (pi : ℕ)
        (st : LoopSt) (key : String),
      cell ("P" ++ toString (pi + 1) ++ " " ++ key) = none →
      (cellStep cell keys pi st key).stats
        = setKey st.stats ("P" ++ toString (pi + 1) ++ " " ++ key) (.pStr "0")
      ∧ (cellStep cell keys pi st key).sf = st.sf
      ∧ (cellStep cell keys pi st key).sh = st.sh) := by
  refine ⟨?_, ?_, ?_, ?_⟩
  · intro ocrOut recheckOut label h
    exact performOcrLoop_none ocrOut recheckOut label (List.range 6)
      (fun i hi => h i (List.mem_range.mp hi))
  · intro ocrOut recheckOut label k s hk hpre hs hne hz
    obtain ⟨L2, hdec⟩ := range6_decompose k hk
    unfold perform_ocr
    rw [hdec, performOcrLoop_skip ocrOut recheckOut label _ _
      (fun i hi => hpre i (List.mem_range.mp hi))]
    exact performOcrLoop_hit_plain ocrOut recheckOut label k L2 s hs hne hz
  · intro ocrOut recheckOut label k s hk hpre hs hne hz h8
    obtain ⟨L2, hdec⟩ := range6_decompose k hk
    unfold perform_ocr
    rw [hdec, performOcrLoop_skip ocrOut recheckOut label _ _
      (fun i hi => hpre i (List.mem_range.mp hi))]
    exact performOcrLoop_hit_recheck ocrOut recheckOut label k L2 s hs hne hz h8
  · intro cell keys pi st key hc
    simp only [cellStep, hc]
    split_ifs <;> exact ⟨rfl, rfl, rfl⟩

/-- Concrete instantiation of `C8_extraction_amended`: when variant 0 reads
`" 42 "` for a `Kills` box, `perform_ocr` returns the stripped text
`"42"`. -/
theorem C8_extraction_amended_witness :
    perform_ocr (fun i => if i = 0 then some " 42 " else none)
      (fun _ => none) "Kills" = some (pyStrip " 42 ") :=
  C8_extraction_amended.2.1 (fun i => if i = 0 then some " 42 " else none)
    (fun _ => none) "Kills" 0 " 42 " (by omega) (by omega) rfl (by decide)
    (by decide)

/-! ### C4/C5: the length gate and the short-name rule of `find_best_match` -/

theorem normInsert_inv (names : List String) (acc : List (String × String))
    (n : String)
    (hacc : ∀ p ∈ acc, p.1 = normalize_name p.2 ∧ p.2 ∈ names)
    (hn : n ∈ names) :
    ∀ p ∈ normInsert acc n, p.1 = normalize_name p.2 ∧ p.2 ∈ names := by
  intro p hp
  simp only [normInsert] at hp
  split_ifs at hp with hmem
  · obtain ⟨q, hq, he⟩ := List.mem_map.mp hp
    by_cases hk : q.1 = normalize_name n
    · rw [if_pos hk] at he
      rw [← he]
      exact ⟨rfl, hn⟩
    · rw [if_neg hk] at he
      rw [← he]
      exact hacc q hq
  · rcases List.mem_append.mp hp with h1 | h2
    · exact hacc p h1
    · rw [List.mem_singleton.mp h2]
      exact ⟨rfl, hn⟩

theorem foldl_normInsert_inv (names : List String) (l : List String) :
    ∀ acc : List (String × String),
      (∀ x ∈ l, x ∈ names) →
      (∀ p ∈ acc, p.1 = normalize_name p.2 ∧ p.2 ∈ names) →
      ∀ p ∈ l.foldl normInsert acc, p.1 = normalize_name p.2 ∧ p.2 ∈ names := by
  induction l with
  | nil => exact fun acc _ hacc => hacc
  | cons x t ih =>
    intro acc hl hacc
    rw [List.foldl_cons]
    exact ih _ (fun y hy => hl y (List.mem_cons_of_mem x hy))
      (normInsert_inv names acc x hacc (hl x (List.mem_cons_self x t)))

/-- Every entry of the norm map pairs a name from the roster with its own
normalization. -/
theorem buildNormMap_inv (names : List String) :
    ∀ p ∈ buildNormMap names, p.1 = normalize_name p.2 ∧ p.2 ∈ names :=
  foldl_normInsert_inv names names [] (fun _ hx => hx) (by simp)

/-- Looking up a present key in the norm map yields a roster name whose
normalization is that key. -/
theorem normMapGet_spec (names : List String) (n : String)
    (hn : n ∈ (buildNormMap names).map (fun p => p.1)) :
    normalize_name (normMapGet (buildNormMap names) n) = n
    ∧ normMapGet (buildNormMap names) n ∈ names := by
  obtain ⟨p, hp, he⟩ := List.mem_map.mp hn
  rcases hf : (buildNormMap names).find? (fun q => q.1 = n) with _ | q
  · have hsome := List.find?_isSome.mpr
      (⟨p, hp, by simp [he]⟩ :
        ∃ x, x ∈ buildNormMap names ∧ (fun q => decide (q.1 = n)) x = true)
    rw [hf] at hsome
    simp at hsome
  · have hq1 : q.1 = n := by simpa using List.find?_some hf
    obtain ⟨hnorm, hmem⟩ :=
      buildNormMap_inv names q (List.mem_of_find?_eq_some hf)
    unfold normMapGet
    rw [hf]
    simp only [Option.map_some', Option.getD_some]
    exact ⟨by rw [← hnorm, hq1], hmem⟩

theorem lengthGate_iff_ratio (o n : ℕ) :
    lengthGate o n = true ↔
      ((n : ℤ) - (o : ℤ)).natAbs ≤ 3 ∧
      3 / 4 ≤ lengthRatio o n ∧ lengthRatio o n ≤ 5 / 4 := by
  unfold lengthGate lengthRatio
  by_cases ho : o = 0
  · subst ho
    norm_num
  · have ho' : (0 : ℚ) < (o : ℚ) := by
      have := Nat.pos_of_ne_zero ho
      exact_mod_cast this
    have key1 : ((3 / 4 : ℚ) ≤ (n : ℚ) / (o : ℚ)) ↔ 3 * o ≤ 4 * n := by
      rw [div_le_div_iff₀ (by norm_num : (0 : ℚ) < 4) ho',
        show ((3 : ℚ) * o = ((3 * o : ℕ) : ℚ)) by push_cast; ring,
        show ((n : ℚ) * 4 = ((4 * n : ℕ) : ℚ)) by push_cast; ring]
      exact Nat.cast_le
    have key2 : (((n : ℚ) / (o : ℚ)) ≤ 5 / 4) ↔ 4 * n ≤ 5 * o := by
      rw [div_le_div_iff₀ ho' (by norm_num : (0 : ℚ) < 4),
        show ((n : ℚ) * 4 = ((4 * n : ℕ) : ℚ)) by push_cast; ring,
        show ((5 : ℚ) * o = ((5 * o : ℕ) : ℚ)) by push_cast; ring]
      exact Nat.cast_le
    rw [if_neg ho, if_neg ho, key1, key2]
    simp only [Bool.and_eq_true, decide_eq_true_eq]

theorem foldl_pick_mem (xs : List (String × ℚ)) :
    ∀ b : String × ℚ,
      xs.foldl (fun b y => if b.2 < y.2 then y else b) b ∈ b :: xs := by
  induction xs with
  | nil => exact fun b => List.mem_cons_self b []
  | cons y t ih =>
    intro b
    rw [List.foldl_cons]
    rcases List.mem_cons.mp (ih (if b.2 < y.2 then y else b)) with h | h
    · rw [h]
      split_ifs with hc
      · exact List.mem_cons_of_mem b (List.mem_cons_self y t)
      · exact List.mem_cons_self b (y :: t)
    · exact List.mem_cons_of_mem b (List.mem_cons_of_mem y h)

theorem pickFirstMax_mem (l : List (String × ℚ)) (x : String × ℚ)
    (h : pickFirstMax l = some x) : x ∈ l := by
  cases l with
  | nil => simp [pickFirstMax] at h
  | cons a t =>
    simp only [pickFirstMax, Option.some_inj] at h
    rw [← h]
    exact foldl_pick_mem t a

/-- Any successful match of `find_best_match` is a roster name whose
normalization survived the length gate. -/
theorem find_best_match_some (pr ts : String → String → ℚ) (threshold : ℚ)
    (minLen : ℕ) (ocrName : String) (registeredNames : List String)
    (nm : String) (sc : ℚ)
    (h : find_best_match pr ts threshold minLen ocrName registeredNames
      = some (nm, sc)) :
    nm ∈ registeredNames
    ∧ normalize_name nm ∈ fbmKeys ocrName registeredNames := by
  by_cases h0 : (ocrName = "" || registeredNames.isEmpty) = true
  · rw [find_best_match, if_pos h0] at h
    simp at h
  · rw [find_best_match, if_neg h0] at h
    rcases hf : (fbmKeys ocrName registeredNames).find?
        (fun n => n = normalize_name (pyStrip ocrName)) with _ | n
    · rw [hf] at h
      split_ifs at h with hlen
      obtain ⟨c, hc, he⟩ := List.mem_map.mp (pickFirstMax_mem _ _ h)
      injection he with he1 he2
      have hc1 := (List.mem_filter.mp hc).1
      obtain ⟨n, hn, he3⟩ := List.mem_map.mp hc1
      subst he3
      have he1n : normMapGet (buildNormMap registeredNames) n = nm := he1
      have hkey : n ∈ (buildNormMap registeredNames).map (fun p => p.1) :=
        (List.mem_filter.mp hn).1
      obtain ⟨hnorm, hmem⟩ := normMapGet_spec registeredNames n hkey
      rw [← he1n]
      exact ⟨hmem, by rw [hnorm]; exact hn⟩
    · rw [hf] at h
      rw [Option.some_inj] at h
      injection h with h1 h2
      have hmemF : n ∈ fbmKeys ocrName registeredNames :=
        List.mem_of_find?_eq_some hf
      have hkey : n ∈ (buildNormMap registeredNames).map (fun p => p.1) :=
        (List.mem_filter.mp hmemF).1
      obtain ⟨hnorm, hmem⟩ := normMapGet_spec registeredNames n hkey
      rw [← h1]
      exact ⟨hmem, by rw [hnorm]; exact hmemF⟩

/-- C4. Fuzzy matching never returns a candidate whose normalized length
differs from the normalized OCR name's length by more than 3 characters, or
whose length ratio (candidate / OCR, taken as 1.0 for an empty OCR name)
falls outside [0.75, 1.25] — for every scorer pair, threshold and score. -/
theorem C4_length_gate (pr ts : String → String → ℚ) (threshold : ℚ)
    (minLen : ℕ) (ocrName : String) (registeredNames : List String)
    (nm : String) (sc : ℚ)
    (h : find_best_match pr ts threshold minLen ocrName registeredNames
      = some (nm, sc)) :
    (((normalize_name nm).length : ℤ)
        - ((normalize_name (pyStrip ocrName)).length : ℤ)).natAbs ≤ 3
    ∧ 3 / 4 ≤ lengthRatio (normalize_name (pyStrip ocrName)).length
        (normalize_name nm).length
    ∧ lengthRatio (normalize_name (pyStrip ocrName)).length
        (normalize_name nm).length ≤ 5 / 4 := by
  obtain ⟨_, hmem⟩ :=
    find_best_match_some pr ts threshold minLen ocrName registeredNames nm sc h
  exact (lengthGate_iff_ratio _ _).mp (List.mem_filter.mp hmem).2

/-- Concrete instantiation of `C4_length_gate` on an exact match. -/
theorem C4_length_gate_witness :
    ((((normalize_name "hello").length : ℤ)
        - ((normalize_name (pyStrip "Hello")).length : ℤ)).natAbs ≤ 3)
    ∧ 3 / 4 ≤ lengthRatio (normalize_name (pyStrip "Hello")).length
        (normalize_name "hello").length
    ∧ lengthRatio (normalize_name (pyStrip "Hello")).length
        (normalize_name "hello").length ≤ 5 / 4 :=
  C4_length_gate (fun _ _ => 0) (fun _ _ => 0) 80 3 "Hello" ["hello"]
    "hello" 100 (by decide)

/-- C5. For an OCR name whose normalized form is shorter than `min_len`,
`find_best_match` can only return an exact normalized match at score 100 —
fuzzy scoring is never reached — and if no roster name has the same
normalized form, it returns no match, for every scorer pair and threshold. -/
theorem C5_short_names (pr ts : String → String → ℚ) (threshold : ℚ)
    (minLen : ℕ) (ocrName : String) (registeredNames : List String)
    (hshort : (normalize_name (pyStrip ocrName)).length < minLen) :
    (∀ nm sc,
      find_best_match pr ts threshold minLen ocrName registeredNames
        = some (nm, sc) →
      sc = 100 ∧ normalize_name nm = normalize_name (pyStrip ocrName))
    ∧ ((∀ x ∈ registeredNames,
        normalize_name x ≠ normalize_name (pyStrip ocrName)) →
      find_best_match pr ts threshold minLen ocrName registeredNames
        = none) := by
  constructor
  · intro nm sc h
    by_cases h0 : (ocrName = "" || registeredNames.isEmpty) = true
    · rw [find_best_match, if_pos h0] at h
      simp at h
    · rw [find_best_match, if_neg h0] at h
      rcases hf : (fbmKeys ocrName registeredNames).find?
          (fun n => n = normalize_name (pyStrip ocrName)) with _ | n
      · rw [hf, if_pos hshort] at h
        simp at h
      · rw [hf, Option.some_inj] at h
        injection h with h1 h2
        have hn : n = normalize_name (pyStrip ocrName) := by
          simpa using List.find?_some hf
        have hkey : n ∈ (buildNormMap registeredNames).map (fun p => p.1) :=
          (List.mem_filter.mp (List.mem_of_find?_eq_some hf)).1
        obtain ⟨hnorm, _⟩ := normMapGet_spec registeredNames n hkey
        exact ⟨h2.symm, by rw [← h1, hnorm, hn]⟩
  · intro hne
    by_cases h0 : (ocrName = "" || registeredNames.isEmpty) = true
    · rw [find_best_match, if_pos h0]
    · rw [find_best_match, if_neg h0]
      have hf : (fbmKeys ocrName registeredNames).find?
          (fun n => n = normalize_name (pyStrip ocrName)) = none := by
        rw [List.find?_eq_none]
        intro x hx hxe
        have hkey : x ∈ (buildNormMap registeredNames).map (fun p => p.1) :=
          (List.mem_filter.mp hx).1
        obtain ⟨p, hp, he⟩ := List.mem_map.mp hkey
        obtain ⟨hnorm, hmem⟩ := buildNormMap_inv registeredNames p hp
        have : x = normalize_name (pyStrip ocrName) := by simpa using hxe
        exact hne p.2 hmem (by rw [← hnorm, he, this])
      rw [hf, if_pos hshort]

/-- Concrete instantiation of `C5_short_names`: the two-letter OCR name
`"ab"` has no exact normalized equal in the roster `["xy"]`, so there is no
match. -/
theorem C5_short_names_witness :
    find_best_match (fun _ _ => 0) (fun _ _ => 0) 80 3 "ab" ["xy"] = none :=
  (C5_short_names (fun _ _ => 0) (fun _ _ => 0) 80 3 "ab" ["xy"]
    (by decide)).2 (by decide)

/-! ### C6: per-field validation of operator edits -/

/-- C6 counterexample. `Melee Kills` is an integer field of the data model,
yet `validate_stat` accepts the non-integer, non-`'N/A'` reply `"abc"`
verbatim, and the edit step commits it to the record. -/
theorem C6_counterexample :
    validate_stat "Melee Kills" "abc" = some (.pStr "abc")
    ∧ fieldEditStep (fun _ _ => 0) (fun _ _ => 0) 50 3 [] (fun _ => "N/A")
        [[("Melee Kills", .pInt 7)]] 0 "Melee Kills" "abc"
      = .updated [[("Melee Kills", .pStr "abc")]] := by
  constructor
  · rfl
  · rfl

/-- C6 (amended). In the reconciliation flow's field edit, the operator's
reply is validated as follows: the four fields Kills, Shots Fired, Shots Hit
and Deaths accept only integers or the `'N/A'` sentinel; the percent field
`Accuracy` accepts `'N/A'` or a number (after removing `%` characters),
reformatted to one decimal; every other editable field (`Melee Kills`,
`Stims Used`, `Samples Extracted`, `Stratagems Used`, the name) accepts any
text verbatim; and when validation fails the player list is returned
completely unmutated and the failure is reported. -/
theorem C6_field_validation_amended :
    (∀ field raw v, INT_VALIDATED_FIELDS.contains field = true →
      validate_stat field raw = some v →
      (pyUpper (pyStrip raw) = "N/A" ∧ v = .pStr "N/A")
      ∨ (∃ nz : ℤ, pyInt (pyStrip raw) = some nz ∧ v = .pInt nz))
    ∧ (∀ raw v, validate_stat "Accuracy" raw = some v →
      (pyUpper (pyStrip raw) = "N/A" ∧ v = .pStr "N/A")
      ∨ (∃ q : ℚ,
          pyFloat (String.mk ((pyStrip raw).data.filter (fun c => c ≠ '%')))
            = some q
          ∧ v = .pStr (fmtRatOneDec q ++ "%")))
    ∧ (∀ field raw, ¬ INT_VALIDATED_FIELDS.contains field = true →
      field ≠ "Accuracy" → pyUpper (pyStrip raw) ≠ "N/A" →
      validate_stat field raw = some (.pStr (pyStrip raw)))
    ∧ (∀ (pr ts : String → String → ℚ) (threshold : ℚ) (minLen : ℕ)
        (roster : List RosterEntry) (clan : PyVal → String)
        (players : List Player) (idx : ℕ) (field raw : String),
      validate_stat field raw = none →
      fieldEditStep pr ts threshold minLen roster clan players idx field raw
        = .invalidReported players) := by
  refine ⟨?_, ?_, ?_, ?_⟩
  · intro field raw v hf h
    simp only [validate_stat] at h
    split_ifs at h with h1
    · left
      rw [Option.some_inj] at h
      exact ⟨h1, h.symm⟩
    · right
      obtain ⟨nz, hz, he⟩ := Option.map_eq_some'.mp h
      exact ⟨nz, hz, he.symm⟩
  · intro raw v h
    simp only [validate_stat] at h
    split_ifs at h with h1 h2
    · left
      rw [Option.some_inj] at h
      exact ⟨h1, h.symm⟩
    · exact absurd h2 (by decide)
    · right
      obtain ⟨q, hq, he⟩ := Option.map_eq_some'.mp h
      exact ⟨q, hq, he.symm⟩
  · intro field raw h1 h2 h3
    simp only [validate_stat]
    rw [if_neg h3, if_neg h1, if_neg h2]
  · intro pr ts threshold minLen roster clan players idx field raw hval
    simp only [fieldEditStep, hval]

/-- Concrete instantiation of `C6_field_validation_amended`: the integer
field `Kills` accepting the reply `"42"` yields the parsed integer. -/
theorem C6_field_validation_amended_witness :
    (pyUpper (pyStrip "42") = "N/A" ∧ PyVal.pInt 42 = .pStr "N/A")
    ∨ (∃ nz : ℤ, pyInt (pyStrip "42") = some nz ∧ PyVal.pInt 42 = .pInt nz) :=
  C6_field_validation_amended.1 "Kills" "42" (.pInt 42) (by decide) (by decide)

/-! ### C7: identity re-resolution on name edits -/

theorem clearBinding_getKeys (p : Player) :
    getKey (clearBinding p) "player_name" = some .pNone ∧
    getKey (clearBinding p) "discord_id" = some .pNone ∧
    getKey (clearBinding p) "discord_server_id" = some .pNone := by
  simp only [clearBinding]
  refine ⟨?_, ?_, ?_⟩
  · rw [getKey_setKey_ne _ _ _ _ (by decide),
      getKey_setKey_ne _ _ _ _ (by decide),
      getKey_setKey_ne _ _ _ _ (by decide), getKey_setKey_self]
  · rw [getKey_setKey_ne _ _ _ _ (by decide),
      getKey_setKey_ne _ _ _ _ (by decide), getKey_setKey_self]
  · rw [getKey_setKey_ne _ _ _ _ (by decide), getKey_setKey_self]

theorem bindTo_getKeys (p : Player) (entry : RosterEntry)
    (clan : PyVal → String) :
    getKey (bindTo p entry clan) "player_name"
      = some (.pStr entry.player_name) ∧
    getKey (bindTo p entry clan) "discord_id" = some entry.discord_id ∧
    getKey (bindTo p entry clan) "discord_server_id"
      = some entry.discord_server_id := by
  simp only [bindTo]
  split_ifs with ht <;>
    exact ⟨by
      rw [getKey_setKey_ne _ _ _ _ (by decide),
        getKey_setKey_ne _ _ _ _ (by decide),
        getKey_setKey_ne _ _ _ _ (by decide), getKey_setKey_self],
      by
      rw [getKey_setKey_ne _ _ _ _ (by decide),
        getKey_setKey_ne _ _ _ _ (by decide), getKey_setKey_self],
      by
      rw [getKey_setKey_ne _ _ _ _ (by decide), getKey_setKey_self]⟩

theorem findIdx?_isSome_of_mem {x : String} {l : List String} (h : x ∈ l) :
    ∀ i, (List.findIdx? (fun y => y = x) l i).isSome = true := by
  induction l with
  | nil => simp at h
  | cons a t ih =>
    intro i
    rw [List.findIdx?_cons]
    by_cases ha : a = x
    · rw [if_pos (by simp [ha])]
      rfl
    · rw [if_neg (by simp [ha])]
      rcases List.mem_cons.mp h with rfl | hm
      · exact absurd rfl ha
      · exact ih hm (i + 1)

/-- C7. After a name edit, the record's identity is either bound to a roster
entry (name, discord id and server id all taken from it) or completely
cleared to `None` — never a mixture; and whenever identity resolution finds
no roster match for the new name, the binding is cleared even if it was
previously bound. -/
theorem C7_name_edit_binding (pr ts : String → String → ℚ) (threshold : ℚ)
    (minLen : ℕ) (roster : List RosterEntry) (clan : PyVal → String)
    (player : Player) (raw : String) :
    ((∃ e, e ∈ roster ∧
        getKey (nameEdit pr ts threshold minLen roster clan player raw)
          "player_name" = some (.pStr e.player_name) ∧
        getKey (nameEdit pr ts threshold minLen roster clan player raw)
          "discord_id" = some e.discord_id ∧
        getKey (nameEdit pr ts threshold minLen roster clan player raw)
          "discord_server_id" = some e.discord_server_id)
      ∨ (getKey (nameEdit pr ts threshold minLen roster clan player raw)
          "player_name" = some .pNone ∧
        getKey (nameEdit pr ts threshold minLen roster clan player raw)
          "discord_id" = some .pNone ∧
        getKey (nameEdit pr ts threshold minLen roster clan player raw)
          "discord_server_id" = some .pNone))
    ∧ (∀ c, clean_ocr_result raw "Name" = some c →
        find_best_match pr ts threshold minLen (clean_for_match c)
          ((roster.map (fun e => e.player_name)).map clean_for_match) = none →
        getKey (nameEdit pr ts threshold minLen roster clan player raw)
          "player_name" = some .pNone ∧
        getKey (nameEdit pr ts threshold minLen roster clan player raw)
          "discord_id" = some .pNone ∧
        getKey (nameEdit pr ts threshold minLen roster clan player raw)
          "discord_server_id" = some .pNone) := by
  constructor
  · rcases hcl : clean_ocr_result raw "Name" with _ | c
    · right
      have hres : nameEdit pr ts threshold minLen roster clan player raw
          = clearBinding player := by
        simp only [nameEdit, hcl]
      rw [hres]
      exact clearBinding_getKeys player
    · rcases hfm : find_best_match pr ts threshold minLen (clean_for_match c)
          ((roster.map (fun e => e.player_name)).map clean_for_match)
        with _ | bs
      · right
        have hres : nameEdit pr ts threshold minLen roster clan player raw
            = clearBinding player := by
          simp only [nameEdit, hcl, hfm]
        rw [hres]
        exact clearBinding_getKeys player
      · obtain ⟨best, score⟩ := bs
        by_cases hcond : (decide (best ≠ "") && decide (threshold ≤ score))
            = true
        · -- a (truthy) match at/above threshold: bind to the roster entry
          have hmem : best ∈ (roster.map (fun e => e.player_name)).map
              clean_for_match :=
            (find_best_match_some pr ts threshold minLen (clean_for_match c)
              _ best score hfm).1
          have hsome := findIdx?_isSome_of_mem hmem 0
          rcases hidx : List.findIdx? (fun n => n = best)
              ((roster.map (fun e => e.player_name)).map clean_for_match)
            with _ | i
          · rw [hidx] at hsome
            simp at hsome
          · have hlen : i < roster.length := by
              have := (List.findIdx?_eq_some_iff_findIdx_eq.mp hidx).1
              simpa using this
            have hres : nameEdit pr ts threshold minLen roster clan player raw
                = bindTo player (roster.getD i ⟨"", .pNone, .pNone⟩) clan := by
              simp only [nameEdit, hcl, hfm, hidx, hcond, if_true]
            have hget : roster.getD i ⟨"", .pNone, .pNone⟩ = roster[i] := by
              simp [List.getD_eq_getElem?_getD, List.getElem?_eq_getElem hlen]
            left
            refine ⟨roster[i], List.getElem_mem hlen, ?_⟩
            rw [hres, hget]
            exact bindTo_getKeys player roster[i] clan
        · right
          have hres : nameEdit pr ts threshold minLen roster clan player raw
              = clearBinding player := by
            simp only [nameEdit, hcl, hfm]
            rw [if_neg (by simpa using hcond)]
          rw [hres]
          exact clearBinding_getKeys player
  · intro c hcl hfm
    have hres : nameEdit pr ts threshold minLen roster clan player raw
        = clearBinding player := by
      simp only [nameEdit, hcl, hfm]
    rw [hres]
    exact clearBinding_getKeys player

/-- Concrete instantiation of `C7_name_edit_binding`: editing the name to
`"stranger"` against an empty roster finds no match and clears all three
identity fields of a previously bound record. -/
theorem C7_name_edit_binding_witness :
    getKey (nameEdit (fun _ _ => 0) (fun _ _ => 0) 50 3 [] (fun _ => "N/A")
        [("player_name", .pStr "old"), ("discord_id", .pInt 1),
         ("discord_server_id", .pInt 2)] "stranger")
      "player_name" = some .pNone ∧
    getKey (nameEdit (fun _ _ => 0) (fun _ _ => 0) 50 3 [] (fun _ => "N/A")
        [("player_name", .pStr "old"), ("discord_id", .pInt 1),
         ("discord_server_id", .pInt 2)] "stranger")
      "discord_id" = some .pNone ∧
    getKey (nameEdit (fun _ _ => 0) (fun _ _ => 0) 50 3 [] (fun _ => "N/A")
        [("player_name", .pStr "old"), ("discord_id", .pInt 1),
         ("discord_server_id", .pInt 2)] "stranger")
      "discord_server_id" = some .pNone :=
  (C7_name_edit_binding (fun _ _ => 0) (fun _ _ => 0) 50 3 [] (fun _ => "N/A")
      [("player_name", .pStr "old"), ("discord_id", .pInt 1),
       ("discord_server_id", .pInt 2)] "stranger").2
    "stranger" (by decide) (by decide)

end HD2

